import Mathlib

/-!
Shallow embedding of the NumGo tensor engine (github.com/iSundram/NumGo).

Modelling conventions:
* Go float64 values are modelled as exact rationals.  Every concrete input
  exercised by the claims stays inside the range where float64 arithmetic is
  exact, and the claims under study are about the index/shape/broadcast
  algebra and the algorithmic structure, not about rounding.
* The Go byte buffer is modelled one element slot per entry: the source
  stores size * itemsize bytes and reads the element at byte offset off as
  data[off : off+itemsize]; the model stores the decoded values and reads
  slot off / itemsize.  All arrays produced by this engine are C-contiguous
  (every transform copies), so offsets are always slot aligned.
* Go panics are modelled as values of the error type NGError, following the
  error taxonomy of the specification (ShapeError, IndexError, ...).
* Go machine integer conversions wrap; conversions keep the explicit
  mod 2^w arithmetic.
-/

namespace NumGo

/-- DType enumerates the element encodings, from tensor/tensor.go. -/
inductive DType
  | Bool | Int8 | Int16 | Int32 | Int64
  | Uint8 | Uint16 | Uint32 | Uint64
  | Float32 | Float64 | Complex64 | Complex128
deriving DecidableEq, Repr

/-- ItemSize is the byte width of one element, from tensor/tensor.go. -/
def DType.ItemSize : DType → Nat
  | .Bool | .Int8 | .Uint8 => 1
  | .Int16 | .Uint16 => 2
  | .Int32 | .Uint32 | .Float32 => 4
  | .Int64 | .Uint64 | .Float64 | .Complex64 => 8
  | .Complex128 => 16

/-- NDArray is the strided buffer record, from tensor/tensor.go.  The data
field holds the decoded element values (one entry per element slot of the
Go byte buffer). -/
structure NDArray where
  data : List ℚ
  shape : List Nat
  strides : List Nat
  dtype : DType
  size : Nat
  ndim : Nat
deriving DecidableEq, Repr

/-- NGError models the structured failure kinds of the engine (Go panics),
using the error taxonomy of the specification.  broadcastError carries the
two offending shapes, as the Go error message names both shapes. -/
inductive NGError
  | shapeError
  | indexError
  | broadcastError (s1 s2 : List Nat)
  | dimensionError
  | singularMatrixError
  | unsupportedDTypeError
  | valueError
  | runtimeError
deriving DecidableEq, Repr

deriving instance DecidableEq for Except

/-- prodList is the running product helper used by computeSize and
computeStrides (the Go code inlines it as a loop with accumulator 1). -/
def prodList (l : List Nat) : Nat := l.foldl (· * ·) 1

/-- computeSize from tensor/tensor.go: 0 for an empty shape, otherwise the
product of the extents. -/
def computeSize (shape : List Nat) : Nat :=
  match shape with
  | [] => 0
  | _ => prodList shape

/-- computeStrides from tensor/tensor.go: C-contiguous byte strides,
stride[i] = itemsize * product of the extents after axis i. -/
def computeStrides : List Nat → Nat → List Nat
  | [], _ => []
  | _ :: ds, itemsize => (itemsize * prodList ds) :: computeStrides ds itemsize

/-- Zeros from tensor/creation.go: fresh buffer of zero bytes, which decodes
to the value 0 at every slot for every dtype. -/
def Zeros (shape : List Nat) (dtype : DType) : NDArray :=
  let size := computeSize shape
  { data := List.replicate size 0
    shape := shape
    strides := computeStrides shape dtype.ItemSize
    dtype := dtype
    size := size
    ndim := shape.length }

/-- FromSliceFloat64 from tensor/creation.go. -/
def FromSliceFloat64 (data : List ℚ) (shape : List Nat) : Except NGError NDArray :=
  let size := computeSize shape
  if data.length ≠ size then .error .shapeError
  else .ok
    { data := data
      shape := shape
      strides := computeStrides shape (DType.Float64.ItemSize)
      dtype := .Float64
      size := size
      ndim := shape.length }

/-- FromSliceInt64 from tensor/creation.go. -/
def FromSliceInt64 (data : List Int) (shape : List Nat) : Except NGError NDArray :=
  let size := computeSize shape
  if data.length ≠ size then .error .shapeError
  else .ok
    { data := data.map (fun (v : Int) => (v : ℚ))
      shape := shape
      strides := computeStrides shape (DType.Int64.ItemSize)
      dtype := .Int64
      size := size
      ndim := shape.length }

/-- ratTrunc models the Go float64-to-integer conversion, which truncates
toward zero. -/
def ratTrunc (q : ℚ) : Int := Int.tdiv q.num (q.den : Int)

/-- wrapU models storing an integer into an unsigned w-bit slot. -/
def wrapU (w : Nat) (x : Int) : Int := x % ((2 : Int) ^ w)

/-- wrapS models storing an integer into a signed w-bit slot. -/
def wrapS (w : Nat) (x : Int) : Int :=
  (x + 2 ^ (w - 1)) % ((2 : Int) ^ w) - 2 ^ (w - 1)

/-- encodeFloat64As gives the value that lands in the buffer when the Go
SetFloat64 switch stores a float64 into a slot of the given dtype
(tensor/indexing.go).  Float32 rounding is not modelled (the claims under
study never store through Float32). -/
def encodeFloat64As (dt : DType) (v : ℚ) : ℚ :=
  match dt with
  | .Float64 => v
  | .Float32 => v
  | .Int64 => (wrapS 64 (ratTrunc v) : ℚ)
  | .Int32 => (wrapS 32 (ratTrunc v) : ℚ)
  | .Int16 => (wrapS 16 (ratTrunc v) : ℚ)
  | .Int8 => (wrapS 8 (ratTrunc v) : ℚ)
  | .Uint64 => (wrapU 64 (ratTrunc v) : ℚ)
  | .Uint32 => (wrapU 32 (ratTrunc v) : ℚ)
  | .Uint16 => (wrapU 16 (ratTrunc v) : ℚ)
  | .Uint8 => (wrapU 8 (ratTrunc v) : ℚ)
  | .Bool => if v ≠ 0 then 1 else 0
  | .Complex64 => 0
  | .Complex128 => 0

/-- flatIndexAux is the loop body of flatIndex (tensor/indexing.go):
normalize a negative index against the extent, bounds-check, and accumulate
index * stride.  The catch-all arm is unreachable when the arity check of
flatIndex has passed and the shape/strides invariants hold. -/
def flatIndexAux : List Int → List Nat → List Nat → Except NGError Nat
  | [], _, _ => .ok 0
  | idx :: idxs, n :: ns, s :: ss =>
    let i := if idx < 0 then (n : Int) + idx else idx
    if i < 0 ∨ (n : Int) ≤ i then .error .indexError
    else do
      let rest ← flatIndexAux idxs ns ss
      .ok (i.toNat * s + rest)
  | _, _, _ => .error .shapeError

/-- flatIndex from tensor/indexing.go: arity check, then the normalized
byte offset. -/
def NDArray.flatIndex (a : NDArray) (indices : List Int) : Except NGError Nat :=
  if indices.length ≠ a.ndim then .error .shapeError
  else flatIndexAux indices a.shape a.strides

/-- valAt reads the element slot holding the byte offset off (the Go code
reads data[off : off+itemsize] and decodes). -/
def NDArray.valAt (a : NDArray) (slot : Nat) : ℚ := a.data.getD slot 0

/-- GetFloat64 from tensor/indexing.go.  Every non-complex dtype decodes to
its stored value (integer dtypes convert exactly to float64 in the modelled
range); Bool decodes nonzero bytes to 1; complex dtypes hit the default
panic arm, modelled as unsupportedDTypeError. -/
def NDArray.GetFloat64 (a : NDArray) (indices : List Int) : Except NGError ℚ := do
  let off ← flatIndex a indices
  match a.dtype with
  | .Complex64 | .Complex128 => .error .unsupportedDTypeError
  | .Bool => .ok (if valAt a (off / a.dtype.ItemSize) ≠ 0 then 1 else 0)
  | _ => .ok (valAt a (off / a.dtype.ItemSize))

/-- GetInt64 from tensor/indexing.go: float dtypes truncate toward zero,
Bool decodes to 0 or 1, complex dtypes are unsupported. -/
def NDArray.GetInt64 (a : NDArray) (indices : List Int) : Except NGError Int := do
  let off ← flatIndex a indices
  match a.dtype with
  | .Complex64 | .Complex128 => .error .unsupportedDTypeError
  | .Bool => .ok (if valAt a (off / a.dtype.ItemSize) ≠ 0 then 1 else 0)
  | _ => .ok (ratTrunc (valAt a (off / a.dtype.ItemSize)))

/-- SetFloat64 from tensor/indexing.go: store through the dtype switch;
complex dtypes hit the default panic arm. -/
def NDArray.SetFloat64 (a : NDArray) (value : ℚ) (indices : List Int) :
    Except NGError NDArray := do
  let off ← flatIndex a indices
  match a.dtype with
  | .Complex64 | .Complex128 => .error .unsupportedDTypeError
  | _ => .ok { a with
      data := a.data.set (off / a.dtype.ItemSize) (encodeFloat64As a.dtype value) }

/-- encodeInt64As gives the value stored by the Go SetInt64 switch. -/
def encodeInt64As (dt : DType) (v : Int) : ℚ :=
  match dt with
  | .Float64 => (v : ℚ)
  | .Float32 => (v : ℚ)
  | .Int64 => (wrapS 64 v : ℚ)
  | .Int32 => (wrapS 32 v : ℚ)
  | .Int16 => (wrapS 16 v : ℚ)
  | .Int8 => (wrapS 8 v : ℚ)
  | .Uint64 => (wrapU 64 v : ℚ)
  | .Uint32 => (wrapU 32 v : ℚ)
  | .Uint16 => (wrapU 16 v : ℚ)
  | .Uint8 => (wrapU 8 v : ℚ)
  | .Bool => if v ≠ 0 then 1 else 0
  | .Complex64 => 0
  | .Complex128 => 0

/-- SetInt64 from tensor/indexing.go. -/
def NDArray.SetInt64 (a : NDArray) (value : Int) (indices : List Int) :
    Except NGError NDArray := do
  let off ← flatIndex a indices
  match a.dtype with
  | .Complex64 | .Complex128 => .error .unsupportedDTypeError
  | _ => .ok { a with
      data := a.data.set (off / a.dtype.ItemSize) (encodeInt64As a.dtype value) }

/-- unravelFrom is the loop of unravelIndex (tensor/indexing.go), which
walks the shape from the last axis, peeling remaining % extent and dividing.
The Go loop runs on nonnegative values, where the Go and Lean division and
remainder agree. -/
def unravelFrom : List Nat → Int → List Int × Int
  | [], r => ([], r)
  | d :: ds, r =>
    let p := unravelFrom ds r
    ((p.2 % (d : Int)) :: p.1, p.2 / (d : Int))

/-- unravelIndex from tensor/indexing.go: flat row-major position to
multi-index. -/
def NDArray.unravelIndex (a : NDArray) (flat : Int) : List Int :=
  (unravelFrom a.shape flat).1

/-- Copy from tensor/indexing.go: a deep copy; under value semantics the
copy carries the same field values. -/
def NDArray.Copy (a : NDArray) : NDArray :=
  { data := a.data
    shape := a.shape
    strides := a.strides
    dtype := a.dtype
    size := a.size
    ndim := a.ndim }

/-- broadcastShapes from tensor/broadcast.go: right-align, pad the shorter
shape with ones, and combine axis by axis; the first incompatible axis
aborts with the error naming both input shapes. -/
def broadcastShapes (shape1 shape2 : List Nat) : Except NGError (List Nat) :=
  let maxLen := if shape2.length > shape1.length then shape2.length else shape1.length
  let s1 := List.replicate (maxLen - shape1.length) 1 ++ shape1
  let s2 := List.replicate (maxLen - shape2.length) 1 ++ shape2
  (List.range maxLen).mapM (fun i =>
    let d1 := s1.getD i 0
    let d2 := s2.getD i 0
    if d1 = d2 then .ok d1
    else if d1 = 1 then .ok d2
    else if d2 = 1 then .ok d1
    else .error (.broadcastError shape1 shape2))

/-- broadcastTo from tensor/broadcast.go: check every source axis is 1 or
matches the right-aligned target axis, then materialize a full copy,
mapping any size-1 source axis to index 0. -/
def NDArray.broadcastTo (a : NDArray) (targetShape : List Nat) : Except NGError NDArray :=
  if targetShape.length < a.shape.length then
    .error (.broadcastError a.shape targetShape)
  else
    let offset := targetShape.length - a.shape.length
    if (List.range a.shape.length).any (fun i =>
        a.shape.getD i 0 ≠ 1 ∧ a.shape.getD i 0 ≠ targetShape.getD (offset + i) 0) then
      .error (.broadcastError a.shape targetShape)
    else
      let result := Zeros targetShape a.dtype
      (List.range result.size).foldlM (fun result i => do
        let dstIndices := result.unravelIndex (i : Nat)
        let srcIndices := (List.range a.ndim).map (fun j =>
          if a.shape.getD j 0 = 1 then 0 else dstIndices.getD (offset + j) 0)
        let val ← a.GetFloat64 srcIndices
        result.SetFloat64 val dstIndices) result

/-- binOpLoop is the shared elementwise loop of Add/Sub/Mul/Div
(tensor/arithmetic.go): broadcast both operands to the joint shape, then
write op valA valB at every position of a fresh result typed as the dtype
of the left operand. -/
def NDArray.binOpLoop (a b : NDArray) (op : ℚ → ℚ → ℚ) : Except NGError NDArray := do
  let targetShape ← broadcastShapes a.shape b.shape
  let aBroad ← a.broadcastTo targetShape
  let bBroad ← b.broadcastTo targetShape
  let result := Zeros targetShape a.dtype
  (List.range result.size).foldlM (fun result i => do
    let indices := result.unravelIndex (i : Nat)
    let valA ← aBroad.GetFloat64 indices
    let valB ← bBroad.GetFloat64 indices
    result.SetFloat64 (op valA valB) indices) result

/-- Add from tensor/arithmetic.go. -/
def NDArray.Add (a b : NDArray) : Except NGError NDArray := binOpLoop a b (· + ·)

/-- Sub from tensor/arithmetic.go. -/
def NDArray.Sub (a b : NDArray) : Except NGError NDArray := binOpLoop a b (· - ·)

/-- Mul from tensor/arithmetic.go. -/
def NDArray.Mul (a b : NDArray) : Except NGError NDArray := binOpLoop a b (· * ·)

/-- Div from tensor/arithmetic.go.  Rational division stands in for float64
division; the claims never divide by zero there. -/
def NDArray.Div (a b : NDArray) : Except NGError NDArray := binOpLoop a b (· / ·)

/-- Gt from tensor/comparison.go: same broadcast dance, but the result is a
fresh Bool-typed array and only positions where valA > valB are set to 1. -/
def NDArray.Gt (a b : NDArray) : Except NGError NDArray := do
  let targetShape ← broadcastShapes a.shape b.shape
  let aBroad ← a.broadcastTo targetShape
  let bBroad ← b.broadcastTo targetShape
  let result := Zeros targetShape .Bool
  (List.range result.size).foldlM (fun result i => do
    let indices := result.unravelIndex (i : Nat)
    let valA ← aBroad.GetFloat64 indices
    let valB ← bBroad.GetFloat64 indices
    if valA > valB then result.SetFloat64 1 indices else .ok result) result

/-- Lt from tensor/comparison.go. -/
def NDArray.Lt (a b : NDArray) : Except NGError NDArray := do
  let targetShape ← broadcastShapes a.shape b.shape
  let aBroad ← a.broadcastTo targetShape
  let bBroad ← b.broadcastTo targetShape
  let result := Zeros targetShape .Bool
  (List.range result.size).foldlM (fun result i => do
    let indices := result.unravelIndex (i : Nat)
    let valA ← aBroad.GetFloat64 indices
    let valB ← bBroad.GetFloat64 indices
    if valA < valB then result.SetFloat64 1 indices else .ok result) result

/-- AddScalar from tensor/arithmetic.go: operate on a copy of the receiver. -/
def NDArray.AddScalar (a : NDArray) (scalar : ℚ) : Except NGError NDArray :=
  let result := Copy a
  (List.range result.size).foldlM (fun result i => do
    let indices := result.unravelIndex (i : Nat)
    let val ← result.GetFloat64 indices
    result.SetFloat64 (val + scalar) indices) result

/-- MulScalar from tensor/arithmetic.go. -/
def NDArray.MulScalar (a : NDArray) (scalar : ℚ) : Except NGError NDArray :=
  let result := Copy a
  (List.range result.size).foldlM (fun result i => do
    let indices := result.unravelIndex (i : Nat)
    let val ← result.GetFloat64 indices
    result.SetFloat64 (val * scalar) indices) result

/-- Sum from tensor/reductions.go. -/
def NDArray.Sum (a : NDArray) : Except NGError ℚ :=
  (List.range a.size).foldlM (fun sum i => do
    let v ← a.GetFloat64 (a.unravelIndex (i : Nat))
    .ok (sum + v)) 0

/-- SumAxis from tensor/reductions.go: normalize the axis, drop it from the
shape, and accumulate every source element into the destination slot
obtained by removing the reduced coordinate. -/
def NDArray.SumAxis (a : NDArray) (axis : Int) : Except NGError NDArray :=
  let axis := if axis < 0 then (a.ndim : Int) + axis else axis
  if axis < 0 ∨ (a.ndim : Int) ≤ axis then .error .indexError
  else
    let ax := axis.toNat
    let resultShape := (List.range a.ndim).foldl (fun acc i =>
      if i = ax then acc else acc ++ [a.shape.getD i 0]) ([] : List Nat)
    if resultShape = [] then do
      let s ← a.Sum
      FromSliceFloat64 [s] [1]
    else
      let result := Zeros resultShape a.dtype
      (List.range a.size).foldlM (fun result i => do
        let srcIndices := a.unravelIndex (i : Nat)
        let dstIndices := (List.range a.ndim).foldl (fun acc j =>
          if j = ax then acc else acc ++ [srcIndices.getD j 0]) ([] : List Int)
        let val ← a.GetFloat64 srcIndices
        let currentSum ← result.GetFloat64 dstIndices
        result.SetFloat64 (currentSum + val) dstIndices) result

/-- computeSizeI mirrors the first computeSize call of Reshape
(tensor/shape.go), which runs on the raw requested shape where a -1
placeholder may still be present, so it works on machine integers. -/
def computeSizeI (shape : List Int) : Int :=
  match shape with
  | [] => 0
  | _ => shape.foldl (· * ·) 1

/-- scanShape is the -1 scan of Reshape (tensor/shape.go): locate at most
one -1 placeholder, reject other negative extents, and accumulate the
product of the known extents. -/
def scanShape : List Int → Nat → Option Nat → Nat → Except NGError (Option Nat × Nat)
  | [], _, inferIdx, known => .ok (inferIdx, known)
  | d :: ds, i, inferIdx, known =>
    if d = -1 then
      match inferIdx with
      | some _ => .error .valueError
      | none => scanShape ds (i + 1) (some i) known
    else if d < 0 then .error .valueError
    else scanShape ds (i + 1) inferIdx (known * d.toNat)

/-- Reshape from tensor/shape.go: resolve a single -1 placeholder, demand
the total element count is unchanged, and return a full copy with fresh
C-contiguous strides.  The Go code divides a.size by the product of the
known extents; when that product is zero the Go runtime panics with a
divide-by-zero, modelled as runtimeError. -/
def NDArray.Reshape (a : NDArray) (newShape : List Int) : Except NGError NDArray := do
  let newSize0 := computeSizeI newShape
  let scanned ← scanShape newShape 0 none 1
  let resolved ←
    match scanned.1 with
    | some idx =>
      if scanned.2 = 0 then .error .runtimeError
      else if a.size % scanned.2 ≠ 0 then .error .shapeError
      else .ok (newShape.set idx ((a.size / scanned.2 : Nat) : Int), (a.size : Int))
    | none => .ok (newShape, newSize0)
  if resolved.2 ≠ (a.size : Int) then .error .shapeError
  else
    let shapeN : List Nat := resolved.1.map Int.toNat
    .ok { data := a.data
          shape := shapeN
          strides := computeStrides shapeN a.dtype.ItemSize
          dtype := a.dtype
          size := a.size
          ndim := shapeN.length }

/-- Transpose from tensor/shape.go: default axes reverse the dimension
order; explicit axes must be an in-range permutation; the data is
physically reordered into a fresh C-contiguous buffer. -/
def NDArray.Transpose (a : NDArray) (axes : List Nat) : Except NGError NDArray :=
  let axes := if axes = [] then (List.range a.ndim).reverse else axes
  if axes.length ≠ a.ndim then .error .shapeError
  else if axes.any (fun ax => a.ndim ≤ ax) then .error .indexError
  else if ¬ axes.Nodup then .error .valueError
  else
    let newShape := axes.map (fun ax => a.shape.getD ax 0)
    let newArr : NDArray :=
      { data := List.replicate a.data.length 0
        shape := newShape
        strides := computeStrides newShape a.dtype.ItemSize
        dtype := a.dtype
        size := a.size
        ndim := a.ndim }
    (List.range a.size).foldlM (fun newArr i => do
      let srcIndices := a.unravelIndex (i : Nat)
      let dstIndices := axes.map (fun ax => srcIndices.getD ax 0)
      let srcOffset ← a.flatIndex srcIndices
      let dstOffset ← newArr.flatIndex dstIndices
      let itemsize := a.dtype.ItemSize
      .ok { newArr with
        data := newArr.data.set (dstOffset / itemsize)
          (a.data.getD (srcOffset / itemsize) 0) }) newArr

/-- Full from tensor/creation.go: start from Zeros and overwrite every slot
through a dtype switch that only handles Float64, Float32, Int64 and Int32;
any other dtype falls through with the buffer left at zero bytes. -/
def Full (shape : List Nat) (value : ℚ) (dtype : DType) : NDArray :=
  let arr := Zeros shape dtype
  match dtype with
  | .Float64 => { arr with data := List.replicate arr.size value }
  | .Float32 => { arr with data := List.replicate arr.size (encodeFloat64As .Float32 value) }
  | .Int64 => { arr with data := List.replicate arr.size (encodeFloat64As .Int64 value) }
  | .Int32 => { arr with data := List.replicate arr.size (encodeFloat64As .Int32 value) }
  | _ => arr

namespace linalg

/-- getMinor from linalg/linalg.go: collect every entry outside the removed
row and column, in row-major order, into an (n-1) x (n-1) array. -/
def getMinor (a : NDArray) (row col : Nat) : Except NGError NDArray := do
  let n := a.shape.getD 0 0
  let data ← (List.range n).foldlM (fun acc i =>
    if i = row then .ok acc
    else (List.range n).foldlM (fun acc2 j =>
      if j = col then .ok acc2
      else do
        let v ← a.GetFloat64 [(i : Int), (j : Int)]
        .ok (acc2 ++ [v])) acc) ([] : List ℚ)
  FromSliceFloat64 data [n - 1, n - 1]

/-- detFuel is Det from linalg/linalg.go with the recursion depth made
explicit: the Go recursion terminates because each minor is one row and
column smaller, so Det below passes the matrix dimension as fuel.  The
fuel-0 arm of the cofactor branch is reached only for n = 0, where the Go
cofactor loop body never runs and 0 is returned. -/
def detFuel : Nat → NDArray → Except NGError ℚ
  | fuel, a =>
    if a.ndim ≠ 2 then .error .dimensionError
    else if a.shape.getD 0 0 ≠ a.shape.getD 1 0 then .error .dimensionError
    else
      let n := a.shape.getD 0 0
      if n = 1 then a.GetFloat64 [0, 0]
      else if n = 2 then do
        let a00 ← a.GetFloat64 [0, 0]
        let a11 ← a.GetFloat64 [1, 1]
        let a01 ← a.GetFloat64 [0, 1]
        let a10 ← a.GetFloat64 [1, 0]
        .ok (a00 * a11 - a01 * a10)
      else
        match fuel with
        | 0 => .ok 0
        | f + 1 =>
          (List.range n).foldlM (fun det j => do
            let minor ← getMinor a 0 j
            let dm ← detFuel f minor
            let a0j ← a.GetFloat64 [0, (j : Int)]
            let cofactor := a0j * dm
            .ok (if j % 2 = 0 then det + cofactor else det - cofactor)) 0

/-- Det from linalg/linalg.go: 2D square check, closed forms for n = 1 and
n = 2, recursive cofactor expansion along row 0 otherwise. -/
def Det (a : NDArray) : Except NGError ℚ := detFuel (a.shape.getD 0 0) a

/-- Inv from linalg/linalg.go: Gauss-Jordan elimination without row
swapping on the augmented matrix of width 2n; a pivot of magnitude below
1e-10 aborts with the singular matrix panic. -/
def Inv (a : NDArray) : Except NGError NDArray :=
  if a.ndim ≠ 2 then .error .dimensionError
  else if a.shape.getD 0 0 ≠ a.shape.getD 1 0 then .error .dimensionError
  else
    let n := a.shape.getD 0 0
    do
    let aug0 := Zeros [n, 2 * n] .Float64
    let aug1 ← (List.range n).foldlM (fun (aug : NDArray) (i : Nat) => do
      let aug ← (List.range n).foldlM (fun (aug : NDArray) (j : Nat) => do
        let v ← a.GetFloat64 [(i : Int), (j : Int)]
        aug.SetFloat64 v [(i : Int), (j : Int)]) aug
      aug.SetFloat64 1 [(i : Int), (i : Int) + (n : Int)]) aug0
    let aug2 ← (List.range n).foldlM (fun (aug : NDArray) (i : Nat) => do
      let pivot ← aug.GetFloat64 [(i : Int), (i : Int)]
      if |pivot| < 1 / 10 ^ 10 then .error .singularMatrixError
      else do
        let aug ← (List.range (2 * n)).foldlM (fun (aug : NDArray) (j : Nat) => do
          let v ← aug.GetFloat64 [(i : Int), (j : Int)]
          aug.SetFloat64 (v / pivot) [(i : Int), (j : Int)]) aug
        (List.range n).foldlM (fun (aug : NDArray) (k : Nat) =>
          if k = i then .ok aug
          else do
            let factor ← aug.GetFloat64 [(k : Int), (i : Int)]
            (List.range (2 * n)).foldlM (fun (aug : NDArray) (j : Nat) => do
              let vkj ← aug.GetFloat64 [(k : Int), (j : Int)]
              let vij ← aug.GetFloat64 [(i : Int), (j : Int)]
              aug.SetFloat64 (vkj - factor * vij) [(k : Int), (j : Int)]) aug) aug) aug1
    let result0 := Zeros [n, n] .Float64
    (List.range n).foldlM (fun (res : NDArray) (i : Nat) =>
      (List.range n).foldlM (fun (res : NDArray) (j : Nat) => do
        let v ← aug2.GetFloat64 [(i : Int), (j : Int) + (n : Int)]
        res.SetFloat64 v [(i : Int), (j : Int)]) res) result0

end linalg

namespace random

/-- Modelled from the spec: the deterministic pseudo-random source created
by the Go standard library call rand.NewSource(seed), which is outside this
repository.  The concrete stream below is a 64-bit linear congruential
stand-in; the claims proved about the random engine depend only on the
source being a deterministic function of the seed and the draw position. -/
def sourceNext (s : Nat) : Nat :=
  (s * 6364136223846793005 + 1442695040888963407) % 2 ^ 64

/-- Modelled from the spec: rand.Float64, one draw in [0, 1). -/
def sourceFloat64 (s : Nat) : ℚ × Nat :=
  let s2 := sourceNext s
  (((s2 / 2 ^ 11 : Nat) : ℚ) / 2 ^ 53, s2)

/-- Modelled from the spec: rand.NormFloat64, one standard normal draw; the
stand-in maps a uniform draw into [-4, 4). -/
def sourceNormFloat64 (s : Nat) : ℚ × Nat :=
  let s2 := sourceNext s
  ((((s2 / 2 ^ 11 : Nat) : ℚ) / 2 ^ 53) * 8 - 4, s2)

/-- Modelled from the spec: rand.Intn, one draw in [0, n). -/
def sourceIntn (s : Nat) (n : Nat) : Nat × Nat :=
  let s2 := sourceNext s
  (s2 % n, s2)

/-- Modelled from the spec: math.Exp; computable stand-in (no claim depends
on its values, only on it being a function). -/
def mexp (x : ℚ) : ℚ := 1 + x + x ^ 2 / 2 + x ^ 3 / 6

/-- Modelled from the spec: math.Log; computable stand-in. -/
def mlog (x : ℚ) : ℚ := (x - 1) - (x - 1) ^ 2 / 2 + (x - 1) ^ 3 / 3

/-- Modelled from the spec: math.Sqrt; computable stand-in. -/
def msqrt (x : ℚ) : ℚ := 1 + (x - 1) / 2

/-- RNG from random/random.go: the one stateful component, holding the
position of its deterministic stream. -/
structure RNG where
  source : Nat
deriving DecidableEq, Repr

/-- New from random/random.go: a generator seeded from the given seed and
nothing else. -/
def New (seed : Int) : RNG := ⟨(seed % (2 : Int) ^ 64).toNat⟩

/-- Seed from random/random.go: replace the stream with a fresh one built
from the seed, exactly as New does. -/
def RNG.Seed (_ : RNG) (seed : Int) : RNG := New seed

/-- shapeProd is the inline size loop of every distribution function in
random/random.go: product of the requested extents, starting from 1 (an
empty shape gives 1, unlike computeSize). -/
def shapeProd (shape : List Nat) : Nat := shape.foldl (· * ·) 1

/-- genData is the per-element generation loop shared by the distribution
functions: draw size values in sequence, threading the stream state. -/
def genData (size : Nat) (step : Nat → ℚ × Nat) (s0 : Nat) : List ℚ × Nat :=
  (List.range size).foldl (fun acc _ =>
    let p := step acc.2
    (acc.1 ++ [p.1], p.2)) (([] : List ℚ), s0)

/-- Uniform from random/random.go. -/
def RNG.Uniform (rng : RNG) (low high : ℚ) (shape : List Nat) :
    Except NGError (NDArray × RNG) := do
  let size := shapeProd shape
  let p := genData size (fun s =>
    let d := sourceFloat64 s
    (low + (high - low) * d.1, d.2)) rng.source
  let arr ← FromSliceFloat64 p.1 shape
  .ok (arr, ⟨p.2⟩)

/-- Normal from random/random.go. -/
def RNG.Normal (rng : RNG) (mean std : ℚ) (shape : List Nat) :
    Except NGError (NDArray × RNG) := do
  let size := shapeProd shape
  let p := genData size (fun s =>
    let d := sourceNormFloat64 s
    (mean + std * d.1, d.2)) rng.source
  let arr ← FromSliceFloat64 p.1 shape
  .ok (arr, ⟨p.2⟩)

/-- StandardNormal from random/random.go. -/
def RNG.StandardNormal (rng : RNG) (shape : List Nat) :
    Except NGError (NDArray × RNG) :=
  rng.Normal 0 1 shape

/-- Binomial from random/random.go: per element, count n Bernoulli
successes. -/
def RNG.Binomial (rng : RNG) (n : Nat) (prob : ℚ) (shape : List Nat) :
    Except NGError (NDArray × RNG) := do
  let size := shapeProd shape
  let p := genData size (fun s =>
    let r := (List.range n).foldl (fun acc _ =>
      let d := sourceFloat64 acc.2
      (if d.1 < prob then acc.1 + 1 else acc.1, d.2)) ((0 : Nat), s)
    ((r.1 : ℚ), r.2)) rng.source
  let arr ← FromSliceFloat64 p.1 shape
  .ok (arr, ⟨p.2⟩)

/-- poissonLoop is the Knuth multiplication loop of Poisson: multiply
uniform draws into p until p drops to L or below; the draw count and the
stream state are returned.  The Go loop has no iteration cap; the fuel
models the cutoff after which the loop would keep running. -/
def poissonLoop : Nat → ℚ → ℚ → Nat → Nat → Nat × Nat
  | 0, _, _, k, s => (k, s)
  | fuel + 1, bigL, p, k, s =>
    if p > bigL then
      let d := sourceFloat64 s
      poissonLoop fuel bigL (p * d.1) (k + 1) d.2
    else (k, s)

/-- Poisson from random/random.go: element value is the draw count minus
one.  The value is an integer in Go but stored as float64. -/
def RNG.Poisson (rng : RNG) (lam : ℚ) (shape : List Nat) :
    Except NGError (NDArray × RNG) := do
  let size := shapeProd shape
  let bigL := mexp (-lam)
  let p := genData size (fun s =>
    let r := poissonLoop 1000000 bigL 1 0 s
    (((r.1 : ℚ) - 1 : ℚ), r.2)) rng.source
  let arr ← FromSliceFloat64 p.1 shape
  .ok (arr, ⟨p.2⟩)

/-- Exponential from random/random.go. -/
def RNG.Exponential (rng : RNG) (scale : ℚ) (shape : List Nat) :
    Except NGError (NDArray × RNG) := do
  let size := shapeProd shape
  let p := genData size (fun s =>
    let d := sourceFloat64 s
    (-scale * mlog d.1, d.2)) rng.source
  let arr ← FromSliceFloat64 p.1 shape
  .ok (arr, ⟨p.2⟩)

/-- gammaLoop is the Marsaglia-Tsang rejection loop of Gamma: draw a
standard normal x, reject while v = (1+cx)^3 is nonpositive, then accept on
the fast-path inequality or the log inequality.  The Go loop has no
iteration cap; on fuel exhaustion the stand-in returns 0. -/
def gammaLoop : Nat → ℚ → ℚ → ℚ → Nat → ℚ × Nat
  | 0, _, _, _, s => (0, s)
  | fuel + 1, d, c, scale, s =>
    let nx := sourceNormFloat64 s
    let x := nx.1
    let v := 1 + c * x
    if v ≤ 0 then gammaLoop fuel d c scale nx.2
    else
      let v3 := v * v * v
      let du := sourceFloat64 nx.2
      let u := du.1
      if u < 1 - (331 / 10000) * (x * x) * (x * x) then (scale * d * v3, du.2)
      else if mlog u < (1 / 2) * x * x + d * (1 - v3 + mlog v3) then
        (scale * d * v3, du.2)
      else gammaLoop fuel d c scale du.2

/-- Gamma from random/random.go. -/
def RNG.Gamma (rng : RNG) (shapeParam scale : ℚ) (sizeShape : List Nat) :
    Except NGError (NDArray × RNG) := do
  let n := shapeProd sizeShape
  let d := shapeParam - 1 / 3
  let c := 1 / msqrt (9 * d)
  let p := genData n (fun s => gammaLoop 1000000 d c scale s) rng.source
  let arr ← FromSliceFloat64 p.1 sizeShape
  .ok (arr, ⟨p.2⟩)

/-- Beta from random/random.go: X ~ Gamma(alpha,1), Y ~ Gamma(beta,1),
return X/(X+Y) elementwise. -/
def RNG.Beta (rng : RNG) (alpha beta : ℚ) (shape : List Nat) :
    Except NGError (NDArray × RNG) := do
  let size := shapeProd shape
  let ga ← rng.Gamma alpha 1 [size]
  let gb ← ga.2.Gamma beta 1 [size]
  let data ← (List.range size).foldlM (fun acc i => do
    let x ← ga.1.GetFloat64 [(i : Int)]
    let y ← gb.1.GetFloat64 [(i : Int)]
    .ok (acc ++ [x / (x + y)])) ([] : List ℚ)
  let arr ← FromSliceFloat64 data shape
  .ok (arr, gb.2)

/-- Rand from random/random.go. -/
def RNG.Rand (rng : RNG) (shape : List Nat) : Except NGError (NDArray × RNG) :=
  rng.Uniform 0 1 shape

/-- Randint from random/random.go: draws in [low, high); rand.Intn panics
for a nonpositive span. -/
def RNG.Randint (rng : RNG) (low high : Int) (shape : List Nat) :
    Except NGError (NDArray × RNG) := do
  let size := shapeProd shape
  let span := high - low
  if span ≤ 0 then .error .valueError
  else
    let p := (List.range size).foldl (fun acc _ =>
      let d := sourceIntn acc.2 span.toNat
      (acc.1 ++ [low + (d.1 : Int)], d.2)) (([] : List Int), rng.source)
    let arr ← FromSliceInt64 p.1 shape
    .ok (arr, ⟨p.2⟩)

/-- Choice from random/random.go: sample with replacement by drawing a flat
position and decoding it to a multi-index (the Go code inlines the same
digit computation as unravelIndex). -/
def RNG.Choice (rng : RNG) (arr : NDArray) (size : Nat) :
    Except NGError (NDArray × RNG) := do
  let n := arr.size
  if n = 0 then .error .valueError
  else do
    let p ← (List.range size).foldlM (fun acc _ => do
      let d := sourceIntn acc.2 n
      let indices := arr.unravelIndex (d.1 : Nat)
      let v ← arr.GetFloat64 indices
      .ok (acc.1 ++ [v], d.2)) ((([] : List ℚ), rng.source))
    let res ← FromSliceFloat64 p.1 [size]
    .ok (res, ⟨p.2⟩)

/-- Permutation from random/random.go: identity sequence followed by a
descending Fisher-Yates pass. -/
def RNG.Permutation (rng : RNG) (n : Nat) : Except NGError (NDArray × RNG) := do
  let data0 := (List.range n).map (fun (i : Nat) => (i : Int))
  let p := ((List.range' 1 (n - 1)).reverse).foldl (fun acc i =>
    let d := sourceIntn acc.2 (i + 1)
    let j := d.1
    let vi := acc.1.getD i 0
    let vj := acc.1.getD j 0
    ((acc.1.set i vj).set j vi, d.2)) (data0, rng.source)
  let arr ← FromSliceInt64 p.1 [n]
  .ok (arr, ⟨p.2⟩)

/-- Shuffle from random/random.go: in-place descending Fisher-Yates over
decoded multi-indices; the one operation that mutates an existing buffer.
The value result carries the mutated array. -/
def RNG.Shuffle (rng : RNG) (arr : NDArray) : Except NGError (NDArray × RNG) := do
  let n := arr.size
  ((List.range' 1 (n - 1)).reverse).foldlM (fun acc i => do
    let d := sourceIntn acc.2.source (i + 1)
    let j := d.1
    let indicesI := acc.1.unravelIndex (i : Nat)
    let indicesJ := acc.1.unravelIndex (j : Nat)
    let valI ← acc.1.GetFloat64 indicesI
    let valJ ← acc.1.GetFloat64 indicesJ
    let a2 ← acc.1.SetFloat64 valJ indicesI
    let a3 ← a2.SetFloat64 valI indicesJ
    .ok (a3, (⟨d.2⟩ : RNG))) (arr, rng)

/-- RandCall enumerates the distribution calls of the random engine, for
stating determinism over an arbitrary call sequence. -/
inductive RandCall
  | uniform (low high : ℚ) (shape : List Nat)
  | normal (mean std : ℚ) (shape : List Nat)
  | standardNormal (shape : List Nat)
  | binomial (n : Nat) (p : ℚ) (shape : List Nat)
  | poisson (lam : ℚ) (shape : List Nat)
  | exponential (scale : ℚ) (shape : List Nat)
  | gamma (shapeParam scale : ℚ) (shape : List Nat)
  | beta (alpha bet : ℚ) (shape : List Nat)
  | rand (shape : List Nat)
  | randint (low high : Int) (shape : List Nat)
  | choice (arr : NDArray) (size : Nat)
  | permutation (n : Nat)
  | shuffle (arr : NDArray)

/-- runCall dispatches one distribution call on a generator. -/
def runCall (rng : RNG) : RandCall → Except NGError (NDArray × RNG)
  | .uniform low high shape => rng.Uniform low high shape
  | .normal mean std shape => rng.Normal mean std shape
  | .standardNormal shape => rng.StandardNormal shape
  | .binomial n p shape => rng.Binomial n p shape
  | .poisson lam shape => rng.Poisson lam shape
  | .exponential scale shape => rng.Exponential scale shape
  | .gamma sp sc shape => rng.Gamma sp sc shape
  | .beta al be shape => rng.Beta al be shape
  | .rand shape => rng.Rand shape
  | .randint low high shape => rng.Randint low high shape
  | .choice arr size => rng.Choice arr size
  | .permutation n => rng.Permutation n
  | .shuffle arr => rng.Shuffle arr

/-- runCalls drives a generator through a call sequence, collecting every
output array (or structured failure). -/
def runCalls (rng : RNG) : List RandCall → List (Except NGError NDArray) × RNG
  | [] => ([], rng)
  | c :: cs =>
    match runCall rng c with
    | .error e =>
      let rest := runCalls rng cs
      (.error e :: rest.1, rest.2)
    | .ok p =>
      let rest := runCalls p.2 cs
      (.ok p.1 :: rest.1, rest.2)

end random

/-!
Heap layer.  The frame claims of the specification are about buffer
ownership: producing operations allocate a fresh backing buffer (Go
make/copy) and never write through an operand, while the in-place shuffle
and the indexed set write through the buffer of their argument.  To state
this, buffers live in an explicit heap and arrays hold a buffer reference;
an operation that in Go allocates with make appends a new buffer, and an
operation that in Go assigns into an existing slice writes the referenced
buffer in place.
-/

/-- Heap of element buffers, addressed by allocation order. -/
abbrev Heap := List (List ℚ)

/-- NDRef is an NDArray whose buffer lives in the heap. -/
structure NDRef where
  buf : Nat
  shape : List Nat
  strides : List Nat
  dtype : DType
  size : Nat
  ndim : Nat
deriving DecidableEq, Repr

/-- derefH reads the array value a reference denotes. -/
def derefH (h : Heap) (r : NDRef) : NDArray :=
  { data := h.getD r.buf []
    shape := r.shape
    strides := r.strides
    dtype := r.dtype
    size := r.size
    ndim := r.ndim }

/-- allocH models Go make: the result buffer is appended as a fresh heap
cell, never aliasing an existing one. -/
def allocH (h : Heap) (a : NDArray) : Heap × NDRef :=
  (h ++ [a.data], ⟨h.length, a.shape, a.strides, a.dtype, a.size, a.ndim⟩)

/-- hAdd lifts Add to the heap: the source builds its result inside a
buffer it just allocated, so the heap effect is exactly one fresh
allocation holding the value result. -/
def hAdd (h : Heap) (ra rb : NDRef) : Except NGError (Heap × NDRef) := do
  let res ← (derefH h ra).Add (derefH h rb)
  .ok (allocH h res)

/-- hSub lifts Sub to the heap. -/
def hSub (h : Heap) (ra rb : NDRef) : Except NGError (Heap × NDRef) := do
  let res ← (derefH h ra).Sub (derefH h rb)
  .ok (allocH h res)

/-- hMul lifts Mul to the heap. -/
def hMul (h : Heap) (ra rb : NDRef) : Except NGError (Heap × NDRef) := do
  let res ← (derefH h ra).Mul (derefH h rb)
  .ok (allocH h res)

/-- hDiv lifts Div to the heap. -/
def hDiv (h : Heap) (ra rb : NDRef) : Except NGError (Heap × NDRef) := do
  let res ← (derefH h ra).Div (derefH h rb)
  .ok (allocH h res)

/-- hAddScalar lifts AddScalar to the heap (the source copies the receiver
into a fresh buffer and updates the copy). -/
def hAddScalar (h : Heap) (ra : NDRef) (scalar : ℚ) : Except NGError (Heap × NDRef) := do
  let res ← (derefH h ra).AddScalar scalar
  .ok (allocH h res)

/-- hMulScalar lifts MulScalar to the heap. -/
def hMulScalar (h : Heap) (ra : NDRef) (scalar : ℚ) : Except NGError (Heap × NDRef) := do
  let res ← (derefH h ra).MulScalar scalar
  .ok (allocH h res)

/-- hReshape lifts Reshape to the heap (the source copies the data into a
fresh buffer). -/
def hReshape (h : Heap) (ra : NDRef) (newShape : List Int) : Except NGError (Heap × NDRef) := do
  let res ← (derefH h ra).Reshape newShape
  .ok (allocH h res)

/-- hTranspose lifts Transpose to the heap. -/
def hTranspose (h : Heap) (ra : NDRef) (axes : List Nat) : Except NGError (Heap × NDRef) := do
  let res ← (derefH h ra).Transpose axes
  .ok (allocH h res)

/-- hSetFloat64 is the indexed set: it writes through the buffer of its
argument (Go assigns into a.data), mutating the referenced heap cell. -/
def hSetFloat64 (h : Heap) (ra : NDRef) (value : ℚ) (indices : List Int) :
    Except NGError Heap := do
  let a2 ← (derefH h ra).SetFloat64 value indices
  .ok (h.set ra.buf a2.data)

/-- hShuffle is the in-place shuffle: it writes the swapped values back
through the buffer of its argument. -/
def hShuffle (h : Heap) (ra : NDRef) (rng : random.RNG) :
    Except NGError (Heap × random.RNG) := do
  let p ← rng.Shuffle (derefH h ra)
  .ok (h.set ra.buf p.1.data, p.2)

/-!
Specification-side definitions.  Each of the following definitions is
written from the wording of the specification sentence under study, to be
compared with the source-translated definitions above.
-/

/-- broadcastShapesSpec follows the specification wording: right-align both
shapes, pad the shorter on the left with 1s up to the longer length; the
joint extent of an aligned axis is dA when dA = dB, otherwise whichever of
dA, dB equals 1 is replaced by the other; if neither matches and neither is
1 the whole computation fails with a BroadcastError naming both shapes. -/
def broadcastShapesSpec (shapeA shapeB : List Nat) : Except NGError (List Nat) :=
  let L := max shapeA.length shapeB.length
  let pA := List.replicate (L - shapeA.length) 1 ++ shapeA
  let pB := List.replicate (L - shapeB.length) 1 ++ shapeB
  if (List.zip pA pB).all (fun p => p.1 = p.2 ∨ p.1 = 1 ∨ p.2 = 1) then
    .ok ((List.zip pA pB).map (fun p =>
      if p.1 = p.2 then p.1 else if p.1 = 1 then p.2 else p.1))
  else .error (.broadcastError shapeA shapeB)

/-- normIdx is the index normalization rule of the specification: a
negative index i on an axis of extent n stands for n + i. -/
def normIdx (i : Int) (n : Nat) : Int := if i < 0 then (n : Int) + i else i

/-- inRange states that a normalized index is inside [0, n). -/
def inRange (i : Int) (n : Nat) : Prop := 0 ≤ i ∧ i < (n : Int)

instance (i : Int) (n : Nat) : Decidable (inRange i n) := by
  unfold inRange; infer_instance

/-- linIdx is the row-major linear position of a multi-index, the inverse
of the unravel digits. -/
def linIdx : List Nat → List Nat → Nat
  | _ :: ds, i :: is => i * prodList ds + linIdx ds is
  | _, _ => 0

/-- natUnravelFrom peels row-major digits from the last axis first,
mirroring unravelFrom on naturals. -/
def natUnravelFrom : List Nat → Nat → List Nat × Nat
  | [], r => ([], r)
  | d :: ds, r =>
    let p := natUnravelFrom ds r
    (p.2 % d :: p.1, p.2 / d)

/-- natUnravel is the row-major digit list of a linear position. -/
def natUnravel (shape : List Nat) (flat : Nat) : List Nat :=
  (natUnravelFrom shape flat).1

/-- srcMapIdx is the stride-0 source mapping of broadcastTo in the
specification wording: a source axis of extent 1 always reads position 0,
any other axis reads the right-aligned target coordinate. -/
def srcMapIdx (srcShape : List Nat) (offset : Nat) (dst : List Nat) : List Nat :=
  (List.range srcShape.length).map (fun j =>
    if srcShape.getD j 0 = 1 then 0 else dst.getD (offset + j) 0)

/-- broadcastData is the materialization rule of the specification wording
for broadcastTo: element i of the result is the source element at the
stride-0 mapped multi-index. -/
def broadcastData (a : NDArray) (t : List Nat) : List ℚ :=
  (List.range (computeSize t)).map (fun i =>
    a.valAt (linIdx a.shape (srcMapIdx a.shape (t.length - a.shape.length) (natUnravel t i))))

/-- broadcastArr is the array materialized at the target shape per the
specification wording. -/
def broadcastArr (a : NDArray) (t : List Nat) : NDArray :=
  { data := broadcastData a t
    shape := t
    strides := computeStrides t a.dtype.ItemSize
    dtype := a.dtype
    size := computeSize t
    ndim := t.length }

/-- WF packages the data-model invariants of the specification for the
arrays this engine builds: C-contiguous strides, consistent ndim and size,
and a buffer of exactly size slots. -/
def WF (a : NDArray) : Prop :=
  a.ndim = a.shape.length ∧
  a.strides = computeStrides a.shape a.dtype.ItemSize ∧
  a.size = computeSize a.shape ∧
  a.data.length = a.size

instance (a : NDArray) : Decidable (WF a) := by
  unfold WF; infer_instance

/-- augInit is the augmented matrix of the specification wording for Inv:
the left half holds A, the right half the identity. -/
def augInit (A : Nat → Nat → ℚ) (n : Nat) : Nat → Nat → ℚ :=
  fun i j => if j < n then A i j else if j = i + n then 1 else 0

/-- pivotStep is one Gauss-Jordan step of the specification wording:
normalize pivot row i by the pivot value, then subtract from every other
row k its column-i entry times the normalized row i. -/
def pivotStep (g : Nat → Nat → ℚ) (i : Nat) : Nat → Nat → ℚ :=
  fun r j => if r = i then g i j / g i i else g r j - g r i * (g i j / g i i)

/-- augAfter iterates the Gauss-Jordan steps of the specification wording
for the first k pivot rows, in order, with no row swapping. -/
def augAfter (A : Nat → Nat → ℚ) (n : Nat) : Nat → (Nat → Nat → ℚ)
  | 0 => augInit A n
  | k + 1 => pivotStep (augAfter A n k) k

/-- pivotOK states that the diagonal entry seen at step k clears the 1e-10
singularity threshold of the specification. -/
def pivotOK (A : Nat → Nat → ℚ) (n k : Nat) : Prop :=
  ¬ |augAfter A n k k k| < 1 / 10 ^ 10

instance (A : Nat → Nat → ℚ) (n k : Nat) : Decidable (pivotOK A n k) := by
  unfold pivotOK; infer_instance

/-- minorEntry is the minor of the specification wording for Det: delete
row `row` and column `col`. -/
def minorEntry (A : Nat → Nat → ℚ) (row col : Nat) : Nat → Nat → ℚ :=
  fun i j => A (if i < row then i else i + 1) (if j < col then j else j + 1)

/-- detSpec is the determinant of the specification wording: closed forms
for n = 1 and n = 2, and for larger n the cofactor expansion along row 0
with sign alternating by column parity.  The first argument is the
dimension, which also bounds the recursion depth. -/
def detSpec : Nat → (Nat → Nat → ℚ) → ℚ
  | 0, _ => 0
  | 1, A => A 0 0
  | 2, A => A 0 0 * A 1 1 - A 0 1 * A 1 0
  | n + 3, A =>
    ((List.range (n + 3)).map (fun j =>
      (if j % 2 = 0 then (1 : ℚ) else -1) * A 0 j *
        detSpec (n + 2) (minorEntry A 0 j))).sum

/-- entryAt reads a 2-D array as an entry function (row-major). -/
def entryAt (a : NDArray) (cols : Nat) : Nat → Nat → ℚ :=
  fun i j => a.valAt (i * cols + j)

/-- setRow describes a buffer after a row-segment write loop: the first L
slots starting at base hold f 0 .. f (L-1), the rest keep their contents. -/
def setRow (D : List ℚ) (base : Nat) (f : Nat → ℚ) : Nat → List ℚ
  | 0 => D
  | j + 1 => (setRow D base f j).set (base + j) (f j)

/-- gridData materializes an entry function as a row-major buffer. -/
def gridData (g : Nat → Nat → ℚ) (r c : Nat) : List ℚ :=
  (List.range r).flatMap (fun i => (List.range c).map (g i))

/-- minorArr is the array getMinor builds for row 0 and column col of an
n x n matrix, described by the specification wording: the (n-1) x (n-1)
matrix of the minor entries, row-major. -/
def minorArr (a : NDArray) (n col : Nat) : NDArray :=
  { data := (List.range (n - 1)).flatMap (fun i =>
      (List.range (n - 1)).map (fun j => minorEntry (entryAt a n) 0 col i j))
    shape := [n - 1, n - 1]
    strides := computeStrides [n - 1, n - 1] DType.Float64.ItemSize
    dtype := .Float64
    size := computeSize [n - 1, n - 1]
    ndim := 2 }

/-- writePrefix describes the buffer of a result array after the first n
steps of a linear fill loop: slot p < n holds f p, later slots keep their
old contents. -/
def writePrefix (data : List ℚ) (f : Nat → ℚ) : Nat → List ℚ
  | 0 => data
  | n + 1 => (writePrefix data f n).set n (f n)

/-- sumAxisData is the destination buffer of the SumAxis accumulation loop
after its first N steps: step j adds source element j into the slot whose
multi-index is the source multi-index with the reduced coordinate removed. -/
def sumAxisData (a : NDArray) (ax : Nat) : Nat → List ℚ
  | 0 => List.replicate (computeSize (a.shape.eraseIdx ax)) 0
  | N + 1 =>
    let d := sumAxisData a ax N
    let k := linIdx (a.shape.eraseIdx ax) ((natUnravel a.shape N).eraseIdx ax)
    d.set k (d.getD k 0 + a.valAt N)

/-- offsetSpec is the byte offset formula of the specification wording for
flatIndex: the sum over axes of normalized index times stride. -/
def offsetSpec : List Int → List Nat → List Nat → Nat
  | idx :: idxs, n :: ns, s :: ss => (normIdx idx n).toNat * s + offsetSpec idxs ns ss
  | _, _, _ => 0

/-- allInRangeB decides whether every normalized index lies inside its
axis, per the specification wording for element access. -/
def allInRangeB : List Int → List Nat → Bool
  | [], [] => true
  | i :: is, n :: ns => decide (inRange (normIdx i n) n) && allInRangeB is ns
  | _, _ => false

/-!
Infrastructure lemmas: the mixed-radix arithmetic connecting unravelIndex,
flatIndex and computeStrides to plain linear buffer positions, plus
rewriting helpers for the Except monad.
-/

theorem except_bind_ok {ε α β : Type} (x : α) (f : α → Except ε β) :
    (Except.ok x : Except ε α) >>= f = f x := rfl

theorem except_bind_err {ε α β : Type} (e : ε) (f : α → Except ε β) :
    (Except.error e : Except ε α) >>= f = .error e := rfl

theorem except_pure_eq {ε α : Type} (x : α) : (pure x : Except ε α) = .ok x := rfl

theorem except_map_ok {ε α β : Type} (g : α → β) (x : α) :
    (g <$> (Except.ok x : Except ε α) : Except ε β) = .ok (g x) := rfl

theorem foldl_mul_eq (l : List Nat) : ∀ x : Nat, l.foldl (· * ·) x = x * prodList l := by
  induction l with
  | nil => intro x; simp [prodList]
  | cons d ds ih =>
    intro x
    have h1 : prodList (d :: ds) = List.foldl (· * ·) (1 * d) ds := rfl
    simp only [List.foldl_cons, prodList] at *
    rw [ih (x * d), ih (1 * d)]
    ring

theorem prodList_cons (d : Nat) (ds : List Nat) :
    prodList (d :: ds) = d * prodList ds := by
  have h1 : prodList (d :: ds) = List.foldl (· * ·) (1 * d) ds := rfl
  rw [h1, foldl_mul_eq ds (1 * d), one_mul]

theorem prodList_pos_mem : ∀ {ds : List Nat}, 0 < prodList ds → ∀ d ∈ ds, 0 < d := by
  intro ds
  induction ds with
  | nil => intro _ d hd; cases hd
  | cons d ds ih =>
    intro h x hx
    rw [prodList_cons] at h
    rcases List.mem_cons.mp hx with rfl | hx
    · exact Nat.pos_of_ne_zero (fun h0 => by subst h0; simp at h)
    · exact ih (Nat.pos_of_ne_zero (fun h0 => by rw [h0, Nat.mul_zero] at h; exact Nat.lt_irrefl 0 h)) x hx

theorem natUnravelFrom_snd (ds : List Nat) (r : Nat) :
    (natUnravelFrom ds r).2 = r / prodList ds := by
  induction ds with
  | nil => simp [natUnravelFrom, prodList]
  | cons d ds ih =>
    simp only [natUnravelFrom, ih, prodList_cons]
    rw [Nat.div_div_eq_div_mul, Nat.mul_comm]

theorem natUnravel_length (ds : List Nat) (r : Nat) :
    (natUnravel ds r).length = ds.length := by
  induction ds with
  | nil => simp [natUnravel, natUnravelFrom]
  | cons d ds ih => simpa [natUnravel, natUnravelFrom] using ih

theorem linIdx_natUnravel (ds : List Nat) (r : Nat) :
    linIdx ds (natUnravel ds r) = r % prodList ds := by
  induction ds with
  | nil => simp [natUnravel, natUnravelFrom, linIdx, prodList, Nat.mod_one]
  | cons d ds ih =>
    simp only [natUnravel, natUnravelFrom, linIdx] at *
    rw [natUnravelFrom_snd, ih, prodList_cons]
    rw [Nat.mul_comm d (prodList ds), Nat.mod_mul]
    ring

theorem natUnravel_forall₂ (ds : List Nat) (r : Nat) (h : ∀ d ∈ ds, 0 < d) :
    List.Forall₂ (· < ·) (natUnravel ds r) ds := by
  induction ds with
  | nil => exact List.Forall₂.nil
  | cons d ds ih =>
    simp only [natUnravel, natUnravelFrom]
    refine List.Forall₂.cons ?_ (ih (fun x hx => h x (List.mem_cons_of_mem _ hx)))
    exact Nat.mod_lt _ (h d (List.mem_cons_self _ _))

theorem flatIndexAux_ok {digits ds : List Nat} (w : Nat)
    (h : List.Forall₂ (· < ·) digits ds) :
    flatIndexAux (digits.map (fun (n : Nat) => (n : Int))) ds (computeStrides ds w) =
      .ok (w * linIdx ds digits) := by
  induction h with
  | nil => simp [flatIndexAux, computeStrides, linIdx]
  | @cons i d digits ds hid htail ih =>
    have h0 : ¬ ((i : Int) < 0) := by omega
    show flatIndexAux ((i : Int) :: digits.map (fun (n : Nat) => (n : Int))) (d :: ds)
      ((w * prodList ds) :: computeStrides ds w) = _
    rw [flatIndexAux]
    rw [if_neg h0]
    have h1 : ¬ ((i : Int) < 0 ∨ (d : Int) ≤ (i : Int)) := by omega
    rw [if_neg h1, ih, except_bind_ok]
    congr 1
    simp only [Int.toNat_natCast, linIdx]
    ring

theorem unravelFrom_natCast (ds : List Nat) (r : Nat) :
    unravelFrom ds (r : Int) =
      ((natUnravelFrom ds r).1.map (fun (n : Nat) => (n : Int)), ((natUnravelFrom ds r).2 : Int)) := by
  induction ds with
  | nil => simp [unravelFrom, natUnravelFrom]
  | cons d ds ih =>
    simp only [unravelFrom, natUnravelFrom, ih, List.map_cons]
    rw [Int.natCast_mod, Int.natCast_div]

theorem unravelIndex_natCast (a : NDArray) (i : Nat) :
    a.unravelIndex (i : Int) = (natUnravel a.shape i).map (fun (n : Nat) => (n : Int)) := by
  simp [NDArray.unravelIndex, natUnravel, unravelFrom_natCast]

theorem itemSize_pos (dt : DType) : 0 < dt.ItemSize := by
  cases dt <;> simp [DType.ItemSize]

theorem size_le_prodList {a : NDArray} (h : WF a) : a.size ≤ prodList a.shape := by
  rcases h with ⟨-, -, hsz, -⟩
  rw [hsz]
  cases a.shape with
  | nil => simp [computeSize]
  | cons d ds => simp [computeSize]

theorem flatIndex_unravel {a : NDArray} (h : WF a) {i : Nat} (hi : i < a.size) :
    a.flatIndex (a.unravelIndex (i : Int)) = .ok (a.dtype.ItemSize * i) := by
  obtain ⟨hnd, hst, hsz, hlen⟩ := h
  have hprod : i < prodList a.shape :=
    lt_of_lt_of_le hi (size_le_prodList ⟨hnd, hst, hsz, hlen⟩)
  have hpos := prodList_pos_mem (Nat.pos_of_ne_zero (fun h0 => by rw [h0] at hprod; exact Nat.not_lt_zero _ hprod))
  rw [unravelIndex_natCast]
  unfold NDArray.flatIndex
  have hlenidx : ((natUnravel a.shape i).map (fun (n : Nat) => (n : Int))).length = a.ndim := by
    rw [List.length_map, natUnravel_length, hnd]
  rw [if_neg (by rw [hlenidx]; exact fun hne => hne rfl)]
  rw [hst, flatIndexAux_ok a.dtype.ItemSize (natUnravel_forall₂ _ _ hpos)]
  rw [linIdx_natUnravel, Nat.mod_eq_of_lt hprod]

theorem getF64_lin {a : NDArray} (h : WF a) (hdt : a.dtype = .Float64)
    {i : Nat} (hi : i < a.size) :
    a.GetFloat64 (a.unravelIndex (i : Int)) = .ok (a.valAt i) := by
  unfold NDArray.GetFloat64
  rw [flatIndex_unravel h hi, except_bind_ok, hdt]
  dsimp only
  rw [Nat.mul_div_cancel_left i (itemSize_pos DType.Float64)]

theorem setF64_lin {a : NDArray} (h : WF a) (hdt : a.dtype = .Float64)
    {i : Nat} (hi : i < a.size) (v : ℚ) :
    a.SetFloat64 v (a.unravelIndex (i : Int)) =
      .ok { a with data := a.data.set i v } := by
  unfold NDArray.SetFloat64
  rw [flatIndex_unravel h hi, except_bind_ok, hdt]
  dsimp only
  rw [Nat.mul_div_cancel_left i (itemSize_pos DType.Float64)]
  rfl

theorem writePrefix_length (data : List ℚ) (f : Nat → ℚ) :
    ∀ n, (writePrefix data f n).length = data.length := by
  intro n
  induction n with
  | zero => rfl
  | succ n ih => simp [writePrefix, List.length_set, ih]

theorem writePrefix_getD (data : List ℚ) (f : Nat → ℚ) :
    ∀ n p, (writePrefix data f n).getD p 0 =
      if p < n ∧ p < data.length then f p else data.getD p 0 := by
  intro n
  induction n with
  | zero =>
    intro p
    simp [writePrefix]
  | succ n ih =>
    intro p
    by_cases hp : p = n
    · subst hp
      by_cases hlen : p < data.length
      · rw [writePrefix, List.getD_eq_getElem?_getD,
          List.getElem?_set_self (by rw [writePrefix_length]; exact hlen)]
        simp [hlen]
      · have h1 : (writePrefix data f (p + 1)).length ≤ p := by
          rw [writePrefix_length]; omega
        rw [List.getD_eq_default _ _ h1]
        rw [if_neg (by omega)]
        rw [List.getD_eq_default _ _ (by omega)]
    · rw [writePrefix, List.getD_eq_getElem?_getD, List.getElem?_set_ne (by omega),
        ← List.getD_eq_getElem?_getD, ih p]
      by_cases hlt : p < n ∧ p < data.length
      · rw [if_pos hlt, if_pos ⟨by omega, hlt.2⟩]
      · rw [if_neg hlt, if_neg (by omega)]

theorem wf_fields {st arr : NDArray} (harr : WF arr)
    (h1 : st.shape = arr.shape) (h2 : st.strides = arr.strides)
    (h3 : st.dtype = arr.dtype) (h4 : st.size = arr.size)
    (h5 : st.ndim = arr.ndim) (h6 : st.data.length = arr.data.length) :
    WF st := by
  obtain ⟨ha, hb, hc, hd⟩ := harr
  exact ⟨by rw [h5, h1, ha], by rw [h2, h1, h3, hb], by rw [h4, h1, hc], by rw [h6, h4, hd]⟩

theorem foldlM_setLin (arr : NDArray) (body : NDArray → Nat → Except NGError NDArray)
    (f : Nat → ℚ) (n : Nat)
    (hWF : WF arr) (hdt : arr.dtype = .Float64) (hn : n ≤ arr.size)
    (hbody : ∀ (st : NDArray) (i : Nat), i < n →
      st.shape = arr.shape → st.strides = arr.strides → st.dtype = arr.dtype →
      st.size = arr.size → st.ndim = arr.ndim → st.data.length = arr.data.length →
      body st i = st.SetFloat64 (f i) (st.unravelIndex (i : Int))) :
    (List.range n).foldlM body arr = .ok { arr with data := writePrefix arr.data f n } := by
  induction n with
  | zero => rfl
  | succ n ih =>
    rw [List.range_succ, List.foldlM_append]
    rw [ih (le_of_lt hn) (fun st i hi => hbody st i (Nat.lt_succ_of_lt hi))]
    rw [except_bind_ok]
    have hfields : ({ arr with data := writePrefix arr.data f n } : NDArray).data.length
        = arr.data.length := writePrefix_length arr.data f n
    have hwfst : WF { arr with data := writePrefix arr.data f n } :=
      wf_fields hWF rfl rfl rfl rfl rfl hfields
    simp only [List.foldlM_cons, List.foldlM_nil]
    rw [hbody ({ arr with data := writePrefix arr.data f n }) n
      (Nat.lt_succ_self n) rfl rfl rfl rfl rfl hfields]
    rw [setF64_lin hwfst hdt (show n < arr.size from hn) (f n)]
    rw [except_bind_ok]
    rfl

/-!
Claim C1: broadcastShapes follows the NumPy broadcasting rule of the
specification.
-/

theorem mapM_map_eq {α β γ : Type} (l : List α) (f : α → β) (g : β → Except NGError γ) :
    (l.map f).mapM g = l.mapM (fun x => g (f x)) := by
  induction l with
  | nil => rfl
  | cons a l ih => rw [List.map_cons, List.mapM_cons, List.mapM_cons, ih]

theorem mapM_range_getD (g : Nat → Nat → Except NGError Nat) :
    ∀ (L : Nat) (p1 p2 : List Nat), p1.length = L → p2.length = L →
      (List.range L).mapM (fun i => g (p1.getD i 0) (p2.getD i 0)) =
        (p1.zip p2).mapM (fun p => g p.1 p.2) := by
  intro L
  induction L with
  | zero =>
    intro p1 p2 h1 h2
    rw [List.length_eq_zero] at h1 h2
    subst h1; subst h2
    rfl
  | succ n ih =>
    intro p1 p2 h1 h2
    cases p1 with
    | nil => simp at h1
    | cons a p1 =>
      cases p2 with
      | nil => simp at h2
      | cons b p2 =>
        rw [List.range_succ_eq_map, List.mapM_cons, mapM_map_eq]
        simp only [List.getD_cons_zero, List.getD_cons_succ]
        rw [ih p1 p2 (by simpa using h1) (by simpa using h2)]
        rw [List.zip_cons_cons, List.mapM_cons]

theorem bc_zip_loop (e : NGError) (l : List (Nat × Nat)) :
    l.mapM (fun p => if p.1 = p.2 then (Except.ok p.1 : Except NGError Nat)
      else if p.1 = 1 then .ok p.2
      else if p.2 = 1 then .ok p.1
      else .error e) =
    (if l.all (fun p => p.1 = p.2 ∨ p.1 = 1 ∨ p.2 = 1) then
      .ok (l.map (fun p => if p.1 = p.2 then p.1 else if p.1 = 1 then p.2 else p.1))
    else .error e) := by
  induction l with
  | nil => rfl
  | cons p l ih =>
    obtain ⟨x, y⟩ := p
    rw [List.mapM_cons, ih, List.all_cons, List.map_cons]
    dsimp only
    by_cases h1 : x = y
    · subst h1
      cases hall : l.all (fun p => decide (p.1 = p.2 ∨ p.1 = 1 ∨ p.2 = 1)) <;>
        simp [hall, except_bind_ok, except_bind_err, except_pure_eq]
    · by_cases h2 : x = 1
      · subst h2
        cases hall : l.all (fun p => decide (p.1 = p.2 ∨ p.1 = 1 ∨ p.2 = 1)) <;>
          simp [h1, hall, except_bind_ok, except_bind_err, except_pure_eq]
      · by_cases h3 : y = 1
        · subst h3
          cases hall : l.all (fun p => decide (p.1 = p.2 ∨ p.1 = 1 ∨ p.2 = 1)) <;>
            simp [h1, h2, hall, except_bind_ok, except_bind_err, except_pure_eq]
        · simp [h1, h2, h3, except_bind_ok, except_bind_err, except_pure_eq]

theorem broadcastShapes_eq_spec :
    ∀ s1 s2 : List Nat, broadcastShapes s1 s2 = broadcastShapesSpec s1 s2 := by
  intro s1 s2
  have hmax : (if s2.length > s1.length then s2.length else s1.length)
      = max s1.length s2.length := by
    rw [Nat.max_def]; split <;> split <;> omega
  unfold broadcastShapes broadcastShapesSpec
  dsimp only
  rw [hmax]
  have hp1 : (List.replicate (max s1.length s2.length - s1.length) 1 ++ s1).length
      = max s1.length s2.length := by
    rw [List.length_append, List.length_replicate]
    omega
  have hp2 : (List.replicate (max s1.length s2.length - s2.length) 1 ++ s2).length
      = max s1.length s2.length := by
    rw [List.length_append, List.length_replicate]
    omega
  rw [mapM_range_getD
    (fun d1 d2 => if d1 = d2 then Except.ok d1
      else if d1 = 1 then .ok d2
      else if d2 = 1 then .ok d1
      else .error (.broadcastError s1 s2))
    (max s1.length s2.length) _ _ hp1 hp2]
  rw [bc_zip_loop]

/-- Claim C1: broadcastShapes right-aligns and pads both shapes with 1s,
takes dA when dA = dB, otherwise replaces the axis of extent 1 by the other
extent, and fails with a BroadcastError naming both shapes when neither
matches and neither is 1; in particular (2,3) against (4,5) fails. -/
theorem claim_C1 :
    (∀ s1 s2 : List Nat, broadcastShapes s1 s2 = broadcastShapesSpec s1 s2) ∧
    broadcastShapes [2, 3] [4, 5] = .error (.broadcastError [2, 3] [4, 5]) :=
  ⟨broadcastShapes_eq_spec, by decide⟩

/-!
Claim C2: element access, negative index normalization, and the IndexError
condition.
-/

theorem computeStrides_length (ds : List Nat) (w : Nat) :
    (computeStrides ds w).length = ds.length := by
  induction ds with
  | nil => rfl
  | cons d ds ih => simpa [computeStrides] using ih

theorem flatIndexAux_spec :
    ∀ (idxs : List Int) (ns ss : List Nat), idxs.length = ns.length →
      ns.length = ss.length →
      (allInRangeB idxs ns = true →
        flatIndexAux idxs ns ss = .ok (offsetSpec idxs ns ss)) ∧
      (allInRangeB idxs ns = false →
        flatIndexAux idxs ns ss = .error .indexError) := by
  intro idxs
  induction idxs with
  | nil =>
    intro ns ss h1 h2
    have hns : ns = [] := List.length_eq_zero.mp (by simpa using h1.symm)
    subst hns
    have hss2 : ss = [] := List.length_eq_zero.mp (by simpa using h2.symm)
    subst hss2
    exact ⟨fun _ => rfl, fun hf => by simp [allInRangeB] at hf⟩
  | cons idx idxs ih =>
    intro ns ss h1 h2
    cases ns with
    | nil => simp at h1
    | cons n ns =>
      cases ss with
      | nil => simp at h2
      | cons s ss =>
        have ih2 := ih ns ss (by simpa using h1) (by simpa using h2)
        rw [flatIndexAux, allInRangeB, offsetSpec]
        by_cases hr : inRange (normIdx idx n) n
        · obtain ⟨hra, hrb⟩ := hr
          unfold normIdx at hra hrb
          rw [if_neg (by omega)]
          rw [decide_eq_true (by exact ⟨hra, hrb⟩ : inRange (normIdx idx n) n), Bool.true_and]
          constructor
          · intro ht
            rw [ih2.1 ht, except_bind_ok]
            rfl
          · intro hf
            rw [ih2.2 hf, except_bind_err]
        · have hr2 : ¬ (0 ≤ normIdx idx n ∧ normIdx idx n < (n : Int)) := hr
          unfold normIdx at hr2
          rw [if_pos (by omega)]
          rw [decide_eq_false hr, Bool.false_and]
          constructor
          · intro ht
            cases ht
          · intro _
            rfl

/-- Claim C2: for a multi-index of the right arity, flatIndex replaces each
negative index i on an axis of extent n by n + i and fails with IndexError
exactly when a normalized index leaves [0, n); the four typed accessors
propagate the failure; on the 2x2 array 1..4 the accesses (-1,-1) and
(-2,-2) read 4 and 1. -/
theorem claim_C2 :
    (∀ (a : NDArray) (idxs : List Int), WF a → idxs.length = a.ndim →
      ((allInRangeB idxs a.shape = true →
          a.flatIndex idxs = .ok (offsetSpec idxs a.shape a.strides)) ∧
       (allInRangeB idxs a.shape = false →
          a.flatIndex idxs = .error .indexError ∧
          a.GetFloat64 idxs = .error .indexError ∧
          a.GetInt64 idxs = .error .indexError ∧
          (∀ v : ℚ, a.SetFloat64 v idxs = .error .indexError) ∧
          (∀ v : Int, a.SetInt64 v idxs = .error .indexError)))) ∧
    (do
      let a ← FromSliceFloat64 [1, 2, 3, 4] [2, 2]
      a.GetFloat64 [-1, -1]) = .ok 4 ∧
    (do
      let a ← FromSliceFloat64 [1, 2, 3, 4] [2, 2]
      a.GetFloat64 [-2, -2]) = .ok 1 := by
  refine ⟨?_, by decide, by decide⟩
  intro a idxs hwf hlen
  have hsl : idxs.length = a.shape.length := by rw [hlen, hwf.1]
  have hss : a.shape.length = a.strides.length := by
    rw [hwf.2.1, computeStrides_length]
  have hspec := flatIndexAux_spec idxs a.shape a.strides hsl hss
  have harity : ¬ idxs.length ≠ a.ndim := fun h => h hlen
  constructor
  · intro ht
    unfold NDArray.flatIndex
    rw [if_neg harity, hspec.1 ht]
  · intro hf
    have hfe : a.flatIndex idxs = .error .indexError := by
      unfold NDArray.flatIndex
      rw [if_neg harity, hspec.2 hf]
    refine ⟨hfe, ?_, ?_, fun v => ?_, fun v => ?_⟩
    · unfold NDArray.GetFloat64
      rw [hfe, except_bind_err]
    · unfold NDArray.GetInt64
      rw [hfe, except_bind_err]
    · unfold NDArray.SetFloat64
      rw [hfe, except_bind_err]
    · unfold NDArray.SetInt64
      rw [hfe, except_bind_err]

/-- Witness for claim C2: on the 2x2 array over 1..4, the multi-index
(-1,-1) normalizes in range and flatIndex returns byte offset 24. -/
theorem claim_C2_witness :
    (⟨[1, 2, 3, 4], [2, 2], [16, 8], .Float64, 4, 2⟩ : NDArray).flatIndex [-1, -1]
      = .ok 24 :=
  (claim_C2.1 ⟨[1, 2, 3, 4], [2, 2], [16, 8], .Float64, 4, 2⟩ [-1, -1]
    ⟨rfl, rfl, rfl, rfl⟩ rfl).1 (by decide)

/-!
Claim C10: Full with a dtype outside the four handled cases silently
returns the zero buffer.
-/

/-- Claim C10: the dtype switch of Full has no default branch, so for any
dtype outside Float64, Float32, Int64, Int32 the requested fill value is
ignored and the zero buffer of Zeros is returned unchanged, with no
error. -/
theorem claim_C10 :
    ∀ (shape : List Nat) (value : ℚ) (dt : DType),
      dt ≠ .Float64 → dt ≠ .Float32 → dt ≠ .Int64 → dt ≠ .Int32 →
      Full shape value dt = Zeros shape dt ∧
      (Full shape value dt).data = List.replicate (computeSize shape) 0 := by
  intro shape v dt h1 h2 h3 h4
  cases dt <;>
    first
    | exact absurd rfl h1
    | exact absurd rfl h2
    | exact absurd rfl h3
    | exact absurd rfl h4
    | exact ⟨rfl, rfl⟩

/-- Witness for claim C10: an Int16 Full of value 5 over shape (3) is the
all-zero array. -/
theorem claim_C10_witness :
    Full [3] 5 .Int16 = Zeros [3] .Int16 ∧ (Full [3] 5 .Int16).data = [0, 0, 0] :=
  claim_C10 [3] 5 .Int16 (by decide) (by decide) (by decide) (by decide)

/-!
Claim C8: the random engine is a deterministic function of the seed and
the call sequence.
-/

/-- Claim C8: two generators built by New from the same seed (or re-seeded
through Seed) and driven through the same distribution calls produce
identical output sequences; the only state is the explicit stream position
threaded through runCalls. -/
theorem claim_C8 :
    ∀ (seed : Int) (calls : List random.RandCall),
      (random.runCalls (random.New seed) calls).1 =
        (random.runCalls (random.New seed) calls).1 ∧
      ∀ g : random.RNG,
        random.runCalls (g.Seed seed) calls = random.runCalls (random.New seed) calls :=
  fun _ _ => ⟨rfl, fun _ => rfl⟩

/-!
Claim C9: frame property of the heap layer — producing operations allocate
a fresh buffer and leave every existing buffer untouched; only the indexed
set and the in-place shuffle write through their argument.
-/

theorem hLift2_frame (op : NDArray → NDArray → Except NGError NDArray)
    (h : Heap) (ra rb : NDRef) (h2 : Heap) (rr : NDRef)
    (hra : ra.buf < h.length) (hrb : rb.buf < h.length)
    (heq : (do
      let res ← op (derefH h ra) (derefH h rb)
      Except.ok (allocH h res)) = .ok (h2, rr)) :
    (∀ i, i < h.length → h2.getD i [] = h.getD i []) ∧
    rr.buf = h.length ∧
    derefH h2 ra = derefH h ra ∧ derefH h2 rb = derefH h rb := by
  cases hres : op (derefH h ra) (derefH h rb) with
  | error e => rw [hres, except_bind_err] at heq; cases heq
  | ok res =>
    rw [hres, except_bind_ok] at heq
    have hpair := Except.ok.inj heq
    have hh2 : h2 = h ++ [res.data] := congrArg Prod.fst hpair.symm
    have hrr : rr = ⟨h.length, res.shape, res.strides, res.dtype, res.size, res.ndim⟩ :=
      congrArg Prod.snd hpair.symm
    subst hh2
    constructor
    · intro i hi
      exact List.getD_append _ _ _ _ hi
    refine ⟨by rw [hrr], ?_, ?_⟩
    · unfold derefH
      rw [List.getD_append _ _ _ _ hra]
    · unfold derefH
      rw [List.getD_append _ _ _ _ hrb]

theorem hLift1_frame (op : NDArray → Except NGError NDArray)
    (h : Heap) (ra : NDRef) (h2 : Heap) (rr : NDRef)
    (hra : ra.buf < h.length)
    (heq : (do
      let res ← op (derefH h ra)
      Except.ok (allocH h res)) = .ok (h2, rr)) :
    (∀ i, i < h.length → h2.getD i [] = h.getD i []) ∧
    rr.buf = h.length ∧
    derefH h2 ra = derefH h ra := by
  cases hres : op (derefH h ra) with
  | error e => rw [hres, except_bind_err] at heq; cases heq
  | ok res =>
    rw [hres, except_bind_ok] at heq
    have hpair := Except.ok.inj heq
    have hh2 : h2 = h ++ [res.data] := congrArg Prod.fst hpair.symm
    have hrr : rr = ⟨h.length, res.shape, res.strides, res.dtype, res.size, res.ndim⟩ :=
      congrArg Prod.snd hpair.symm
    subst hh2
    refine ⟨fun i hi => List.getD_append _ _ _ _ hi, by rw [hrr], ?_⟩
    unfold derefH
    rw [List.getD_append _ _ _ _ hra]

theorem set_frame (h : Heap) (b : Nat) (d : List ℚ) :
    (∀ i, i ≠ b → (h.set b d).getD i [] = h.getD i []) ∧ (h.set b d).length = h.length := by
  refine ⟨fun i hi => ?_, List.length_set h b d⟩
  rw [List.getD_eq_getElem?_getD, List.getElem?_set_ne (fun hc => hi hc.symm),
    ← List.getD_eq_getElem?_getD]

/-- Claim C9: the producing operations Add, Sub, Mul, Div, AddScalar,
MulScalar, Reshape and Transpose return a reference to a freshly allocated
buffer and leave every existing buffer (in particular every operand)
bit-for-bit unchanged, while the indexed SetFloat64 and the in-place
Shuffle write only through the buffer of their argument. -/
theorem claim_C9 :
    (∀ (h : Heap) (ra rb : NDRef) (h2 : Heap) (rr : NDRef),
      ra.buf < h.length → rb.buf < h.length → hAdd h ra rb = .ok (h2, rr) →
      (∀ i, i < h.length → h2.getD i [] = h.getD i []) ∧ rr.buf = h.length ∧
      derefH h2 ra = derefH h ra ∧ derefH h2 rb = derefH h rb) ∧
    (∀ (h : Heap) (ra rb : NDRef) (h2 : Heap) (rr : NDRef),
      ra.buf < h.length → rb.buf < h.length → hSub h ra rb = .ok (h2, rr) →
      (∀ i, i < h.length → h2.getD i [] = h.getD i []) ∧ rr.buf = h.length ∧
      derefH h2 ra = derefH h ra ∧ derefH h2 rb = derefH h rb) ∧
    (∀ (h : Heap) (ra rb : NDRef) (h2 : Heap) (rr : NDRef),
      ra.buf < h.length → rb.buf < h.length → hMul h ra rb = .ok (h2, rr) →
      (∀ i, i < h.length → h2.getD i [] = h.getD i []) ∧ rr.buf = h.length ∧
      derefH h2 ra = derefH h ra ∧ derefH h2 rb = derefH h rb) ∧
    (∀ (h : Heap) (ra rb : NDRef) (h2 : Heap) (rr : NDRef),
      ra.buf < h.length → rb.buf < h.length → hDiv h ra rb = .ok (h2, rr) →
      (∀ i, i < h.length → h2.getD i [] = h.getD i []) ∧ rr.buf = h.length ∧
      derefH h2 ra = derefH h ra ∧ derefH h2 rb = derefH h rb) ∧
    (∀ (h : Heap) (ra : NDRef) (s : ℚ) (h2 : Heap) (rr : NDRef),
      ra.buf < h.length → hAddScalar h ra s = .ok (h2, rr) →
      (∀ i, i < h.length → h2.getD i [] = h.getD i []) ∧ rr.buf = h.length ∧
      derefH h2 ra = derefH h ra) ∧
    (∀ (h : Heap) (ra : NDRef) (s : ℚ) (h2 : Heap) (rr : NDRef),
      ra.buf < h.length → hMulScalar h ra s = .ok (h2, rr) →
      (∀ i, i < h.length → h2.getD i [] = h.getD i []) ∧ rr.buf = h.length ∧
      derefH h2 ra = derefH h ra) ∧
    (∀ (h : Heap) (ra : NDRef) (ns : List Int) (h2 : Heap) (rr : NDRef),
      ra.buf < h.length → hReshape h ra ns = .ok (h2, rr) →
      (∀ i, i < h.length → h2.getD i [] = h.getD i []) ∧ rr.buf = h.length ∧
      derefH h2 ra = derefH h ra) ∧
    (∀ (h : Heap) (ra : NDRef) (axes : List Nat) (h2 : Heap) (rr : NDRef),
      ra.buf < h.length → hTranspose h ra axes = .ok (h2, rr) →
      (∀ i, i < h.length → h2.getD i [] = h.getD i []) ∧ rr.buf = h.length ∧
      derefH h2 ra = derefH h ra) ∧
    (∀ (h : Heap) (ra : NDRef) (v : ℚ) (idx : List Int) (h2 : Heap),
      hSetFloat64 h ra v idx = .ok h2 →
      (∀ i, i ≠ ra.buf → h2.getD i [] = h.getD i []) ∧ h2.length = h.length) ∧
    (∀ (h : Heap) (ra : NDRef) (rng : random.RNG) (h2 : Heap) (rng2 : random.RNG),
      hShuffle h ra rng = .ok (h2, rng2) →
      (∀ i, i ≠ ra.buf → h2.getD i [] = h.getD i []) ∧ h2.length = h.length) := by
  refine ⟨?_, ?_, ?_, ?_, ?_, ?_, ?_, ?_, ?_, ?_⟩
  · exact fun h ra rb h2 rr hra hrb heq => hLift2_frame NDArray.Add h ra rb h2 rr hra hrb heq
  · exact fun h ra rb h2 rr hra hrb heq => hLift2_frame NDArray.Sub h ra rb h2 rr hra hrb heq
  · exact fun h ra rb h2 rr hra hrb heq => hLift2_frame NDArray.Mul h ra rb h2 rr hra hrb heq
  · exact fun h ra rb h2 rr hra hrb heq => hLift2_frame NDArray.Div h ra rb h2 rr hra hrb heq
  · exact fun h ra s h2 rr hra heq =>
      hLift1_frame (fun x => x.AddScalar s) h ra h2 rr hra heq
  · exact fun h ra s h2 rr hra heq =>
      hLift1_frame (fun x => x.MulScalar s) h ra h2 rr hra heq
  · exact fun h ra ns h2 rr hra heq =>
      hLift1_frame (fun x => x.Reshape ns) h ra h2 rr hra heq
  · exact fun h ra axes h2 rr hra heq =>
      hLift1_frame (fun x => x.Transpose axes) h ra h2 rr hra heq
  · intro h ra v idx h2 heq
    cases hres : (derefH h ra).SetFloat64 v idx with
    | error e =>
      unfold hSetFloat64 at heq
      rw [hres, except_bind_err] at heq
      cases heq
    | ok a2 =>
      unfold hSetFloat64 at heq
      rw [hres, except_bind_ok] at heq
      have hh2 := Except.ok.inj heq
      rw [← hh2]
      exact set_frame h ra.buf a2.data
  · intro h ra rng h2 rng2 heq
    cases hres : rng.Shuffle (derefH h ra) with
    | error e =>
      unfold hShuffle at heq
      rw [hres, except_bind_err] at heq
      cases heq
    | ok p =>
      unfold hShuffle at heq
      rw [hres, except_bind_ok] at heq
      have hpair := Except.ok.inj heq
      have hh2 : h2 = h.set ra.buf p.1.data := congrArg Prod.fst hpair.symm
      rw [hh2]
      exact set_frame h ra.buf p.1.data

/-- Witness for claim C9: adding two singleton arrays on a two-buffer heap
allocates buffer 2 and leaves buffers 0 and 1 untouched. -/
theorem claim_C9_witness :
    (∀ i, i < ([[1], [2]] : Heap).length →
      ([[1], [2], [3]] : Heap).getD i [] = ([[1], [2]] : Heap).getD i []) ∧
    (⟨2, [1], [8], .Float64, 1, 1⟩ : NDRef).buf = ([[1], [2]] : Heap).length ∧
    derefH [[1], [2], [3]] ⟨0, [1], [8], .Float64, 1, 1⟩ =
      derefH [[1], [2]] ⟨0, [1], [8], .Float64, 1, 1⟩ ∧
    derefH [[1], [2], [3]] ⟨1, [1], [8], .Float64, 1, 1⟩ =
      derefH [[1], [2]] ⟨1, [1], [8], .Float64, 1, 1⟩ :=
  claim_C9.1 [[1], [2]] ⟨0, [1], [8], .Float64, 1, 1⟩ ⟨1, [1], [8], .Float64, 1, 1⟩
    [[1], [2], [3]] ⟨2, [1], [8], .Float64, 1, 1⟩ (by decide) (by decide)
    (by with_unfolding_all decide)

/-!
Claim C6: Reshape round-trips.
-/

theorem reshape_ok_fields {a b : NDArray} {S : List Int} (h : a.Reshape S = .ok b) :
    b.data = a.data ∧ b.size = a.size ∧ b.dtype = a.dtype := by
  unfold NDArray.Reshape at h
  cases hscan : scanShape S 0 none 1 with
  | error e =>
    rw [hscan, except_bind_err] at h
    cases h
  | ok sc =>
    rw [hscan, except_bind_ok] at h
    obtain ⟨idx?, known⟩ := sc
    cases idx? with
    | none =>
      dsimp only [except_bind_ok] at h
      by_cases hc : computeSizeI S ≠ (a.size : Int)
      · rw [if_pos hc] at h
        cases h
      · rw [if_neg hc] at h
        have hb := Except.ok.inj h
        rw [← hb]
        exact ⟨rfl, rfl, rfl⟩
    | some idx =>
      dsimp only [except_bind_ok, except_bind_err] at h
      by_cases h0 : known = 0
      · rw [if_pos h0] at h
        cases h
      · rw [if_neg h0] at h
        by_cases h1 : a.size % known ≠ 0
        · rw [if_pos h1] at h
          cases h
        · rw [if_neg h1] at h
          rw [if_neg (fun hc => hc rfl)] at h
          have hb := Except.ok.inj h
          rw [← hb]
          exact ⟨rfl, rfl, rfl⟩

theorem scanShape_natCast :
    ∀ (ns : List Nat) (i : Nat) (k : Nat),
      scanShape (ns.map (fun (n : Nat) => (n : Int))) i none k =
        .ok (none, ns.foldl (· * ·) k) := by
  intro ns
  induction ns with
  | nil => intro i k; rfl
  | cons d ds ih =>
    intro i k
    rw [List.map_cons, scanShape]
    rw [if_neg (by omega)]
    rw [if_neg (by omega)]
    rw [Int.toNat_natCast]
    exact ih (i + 1) (k * d)

theorem foldl_mul_natCast (l : List Nat) :
    ∀ x : Nat, (l.map (fun (n : Nat) => (n : Int))).foldl (· * ·) (x : Int) =
      ((l.foldl (· * ·) x : Nat) : Int) := by
  induction l with
  | nil => intro x; rfl
  | cons d ds ih =>
    intro x
    rw [List.map_cons, List.foldl_cons, List.foldl_cons]
    rw [show ((x : Int) * (d : Int)) = ((x * d : Nat) : Int) by push_cast; ring]
    exact ih (x * d)

theorem computeSizeI_natCast (ns : List Nat) :
    computeSizeI (ns.map (fun (n : Nat) => (n : Int))) = (computeSize ns : Int) := by
  cases ns with
  | nil => rfl
  | cons d ds =>
    unfold computeSizeI computeSize
    rw [List.map_cons]
    exact foldl_mul_natCast (d :: ds) 1

theorem map_toNat_natCast (ns : List Nat) :
    (ns.map (fun (n : Nat) => (n : Int))).map Int.toNat = ns := by
  rw [List.map_map]
  have : ∀ n ∈ ns, (Int.toNat ∘ fun (n : Nat) => (n : Int)) n = id n := by
    intro n _
    simp [Int.toNat_natCast]
  rw [List.map_congr_left this, List.map_id]

/-- Claim C6: reshaping a well-formed array to any accepted shape S and
back to its original shape restores the original array exactly (same
buffer contents, shape, strides, dtype), hence elementwise equality. -/
theorem claim_C6 :
    ∀ (a : NDArray) (S : List Int) (b : NDArray), WF a →
      a.Reshape S = .ok b →
      b.Reshape (a.shape.map (fun (n : Nat) => (n : Int))) = .ok a := by
  intro a S b hwf h
  obtain ⟨hdata, hsize, hdtype⟩ := reshape_ok_fields h
  obtain ⟨hnd, hst, hsz, hlen⟩ := hwf
  unfold NDArray.Reshape
  rw [scanShape_natCast a.shape 0 1, except_bind_ok]
  dsimp only [except_bind_ok]
  have hs0 : computeSizeI (a.shape.map (fun (n : Nat) => (n : Int))) = (b.size : Int) := by
    rw [computeSizeI_natCast, hsize, hsz]
  rw [if_neg (fun hc => hc hs0)]
  rw [map_toNat_natCast]
  rw [hdata, hdtype, hsize]
  cases a with
  | mk adata ashape astrides adtype asize andim =>
    simp only at hnd hst hsz hlen ⊢
    rw [hnd, hst]

/-- Witness for claim C6: the 2x3 array over 1..6 reshaped to (3,2) and
back to (2,3) is restored exactly. -/
theorem claim_C6_witness :
    (⟨[1, 2, 3, 4, 5, 6], [3, 2], [16, 8], .Float64, 6, 2⟩ : NDArray).Reshape [2, 3] =
      .ok ⟨[1, 2, 3, 4, 5, 6], [2, 3], [24, 8], .Float64, 6, 2⟩ :=
  claim_C6 ⟨[1, 2, 3, 4, 5, 6], [2, 3], [24, 8], .Float64, 6, 2⟩ [3, 2]
    ⟨[1, 2, 3, 4, 5, 6], [3, 2], [16, 8], .Float64, 6, 2⟩
    ⟨rfl, rfl, rfl, rfl⟩ (by decide)

/-!
Access lemmas at arbitrary valid multi-indices, and preservation facts for
the write loops, shared by the broadcasting, reduction and linear algebra
claims.
-/

theorem getD_map_natCast (l : List Nat) (k : Nat) :
    (l.map (fun (n : Nat) => (n : Int))).getD k 0 = ((l.getD k 0 : Nat) : Int) := by
  have h := List.getD_map l 0 (fun (n : Nat) => (n : Int)) (n := k)
  simpa using h

theorem forall₂_lt_getD {l1 l2 : List Nat} (h : List.Forall₂ (· < ·) l1 l2)
    {k : Nat} (hk : k < l1.length) :
    l1.getD k 0 < l2.getD k 0 := by
  obtain ⟨hlen, hget⟩ := List.forall₂_iff_get.mp h
  rw [List.getD_eq_getElem _ _ hk, List.getD_eq_getElem _ _ (by omega)]
  exact hget k hk (by omega)

theorem flatIndex_at {a : NDArray} (h : WF a) {digits : List Nat}
    (hfa : List.Forall₂ (· < ·) digits a.shape) :
    a.flatIndex (digits.map (fun (n : Nat) => (n : Int))) =
      .ok (a.dtype.ItemSize * linIdx a.shape digits) := by
  obtain ⟨hnd, hst, hsz, hlen⟩ := h
  unfold NDArray.flatIndex
  rw [if_neg (by rw [List.length_map, hfa.length_eq, hnd]; exact fun hne => hne rfl)]
  rw [hst, flatIndexAux_ok a.dtype.ItemSize hfa]

theorem getF64_at {a : NDArray} (h : WF a) (hdt : a.dtype = .Float64)
    {digits : List Nat} (hfa : List.Forall₂ (· < ·) digits a.shape) :
    a.GetFloat64 (digits.map (fun (n : Nat) => (n : Int))) =
      .ok (a.valAt (linIdx a.shape digits)) := by
  unfold NDArray.GetFloat64
  rw [flatIndex_at h hfa, except_bind_ok, hdt]
  dsimp only
  rw [Nat.mul_div_cancel_left _ (itemSize_pos DType.Float64)]

theorem setF64_at {a : NDArray} (h : WF a) (hdt : a.dtype = .Float64)
    {digits : List Nat} (hfa : List.Forall₂ (· < ·) digits a.shape) (v : ℚ) :
    a.SetFloat64 v (digits.map (fun (n : Nat) => (n : Int))) =
      .ok { a with data := a.data.set (linIdx a.shape digits) v } := by
  unfold NDArray.SetFloat64
  rw [flatIndex_at h hfa, except_bind_ok, hdt]
  dsimp only
  rw [Nat.mul_div_cancel_left _ (itemSize_pos DType.Float64)]
  rfl

theorem setF64_ok_fields {st st2 : NDArray} {v : ℚ} {idx : List Int}
    (h : st.SetFloat64 v idx = .ok st2) :
    st2.shape = st.shape ∧ st2.strides = st.strides ∧ st2.dtype = st.dtype ∧
    st2.size = st.size ∧ st2.ndim = st.ndim ∧ st2.data.length = st.data.length := by
  unfold NDArray.SetFloat64 at h
  cases hfi : st.flatIndex idx with
  | error e =>
    rw [hfi, except_bind_err] at h
    cases h
  | ok off =>
    rw [hfi, except_bind_ok] at h
    split at h
    · cases h
    · cases h
    · have h2 := Except.ok.inj h
      rw [← h2]
      exact ⟨rfl, rfl, rfl, rfl, rfl, List.length_set _ _ _⟩

theorem foldlM_fields {body : NDArray → Nat → Except NGError NDArray}
    (P : ∀ st i st2, body st i = .ok st2 → st2.shape = st.shape ∧ st2.dtype = st.dtype) :
    ∀ (l : List Nat) (st r : NDArray), l.foldlM body st = .ok r →
      r.shape = st.shape ∧ r.dtype = st.dtype := by
  intro l
  induction l with
  | nil =>
    intro st r h
    have h2 := Except.ok.inj h
    rw [← h2]
    exact ⟨rfl, rfl⟩
  | cons x l ih =>
    intro st r h
    rw [List.foldlM_cons] at h
    cases hb : body st x with
    | error e =>
      rw [hb, except_bind_err] at h
      cases h
    | ok st2 =>
      rw [hb, except_bind_ok] at h
      obtain ⟨h1, h2⟩ := ih st2 r h
      obtain ⟨p1, p2⟩ := P st x st2 hb
      exact ⟨h1.trans p1, h2.trans p2⟩

/-!
Claim C4 groundwork: consequences of a successful broadcastShapes, and the
materialization semantics of broadcastTo.
-/

theorem writePrefix_full (data : List ℚ) (f : Nat → ℚ) (n : Nat) (h : data.length = n) :
    writePrefix data f n = (List.range n).map f := by
  apply List.ext_getElem
  · rw [writePrefix_length, h, List.length_map, List.length_range]
  · intro i h1 h2
    have hi : i < n := by rw [writePrefix_length, h] at h1; exact h1
    rw [← List.getD_eq_getElem _ 0 h1, ← List.getD_eq_getElem _ 0 h2, writePrefix_getD]
    rw [if_pos ⟨hi, by omega⟩]
    rw [List.getD_eq_getElem _ 0 h2, List.getElem_map, List.getElem_range]

theorem bc_join_props :
    ∀ (p1 p2 : List Nat),
      (p1.zip p2).all (fun p => decide (p.1 = p.2 ∨ p.1 = 1 ∨ p.2 = 1)) = true →
      ∀ j, j < p1.length → j < p2.length →
        (p1.getD j 0 = 1 ∨ p1.getD j 0 = ((p1.zip p2).map
          (fun p => if p.1 = p.2 then p.1 else if p.1 = 1 then p.2 else p.1)).getD j 0) ∧
        (p2.getD j 0 = 1 ∨ p2.getD j 0 = ((p1.zip p2).map
          (fun p => if p.1 = p.2 then p.1 else if p.1 = 1 then p.2 else p.1)).getD j 0) := by
  intro p1
  induction p1 with
  | nil =>
    intro p2 hall j hj1 hj2
    simp at hj1
  | cons x p1 ih =>
    intro p2 hall j hj1 hj2
    cases p2 with
    | nil => simp at hj2
    | cons y p2 =>
      rw [List.zip_cons_cons, List.all_cons, Bool.and_eq_true] at hall
      obtain ⟨hhead, htail⟩ := hall
      have hh : x = y ∨ x = 1 ∨ y = 1 := by simpa using of_decide_eq_true hhead
      cases j with
      | zero =>
        rw [List.zip_cons_cons, List.map_cons]
        simp only [List.getD_cons_zero]
        by_cases he : x = y
        · rw [if_pos he]
          exact ⟨Or.inr rfl, Or.inr he.symm⟩
        · rw [if_neg he]
          by_cases h1 : x = 1
          · rw [if_pos h1]
            exact ⟨Or.inl h1, Or.inr rfl⟩
          · rw [if_neg h1]
            have h2 : y = 1 := by tauto
            exact ⟨Or.inr rfl, Or.inl h2⟩
      | succ j =>
        rw [List.zip_cons_cons, List.map_cons]
        simp only [List.getD_cons_succ]
        exact ih p2 htail j (by simpa using hj1) (by simpa using hj2)

theorem broadcastShapes_ok_props {s1 s2 t : List Nat}
    (h : broadcastShapes s1 s2 = .ok t) :
    t.length = max s1.length s2.length ∧
    (∀ j, j < s1.length →
      s1.getD j 0 = 1 ∨ s1.getD j 0 = t.getD (t.length - s1.length + j) 0) ∧
    (∀ j, j < s2.length →
      s2.getD j 0 = 1 ∨ s2.getD j 0 = t.getD (t.length - s2.length + j) 0) := by
  rw [broadcastShapes_eq_spec] at h
  unfold broadcastShapesSpec at h
  dsimp only at h
  by_cases hc : ((List.replicate (max s1.length s2.length - s1.length) 1 ++ s1).zip
      (List.replicate (max s1.length s2.length - s2.length) 1 ++ s2)).all
      (fun (p : Nat × Nat) => decide (p.1 = p.2 ∨ p.1 = 1 ∨ p.2 = 1)) = true
  · rw [if_pos hc] at h
    have ht : t = ((List.replicate (max s1.length s2.length - s1.length) 1 ++ s1).zip
        (List.replicate (max s1.length s2.length - s2.length) 1 ++ s2)).map
        (fun (p : Nat × Nat) => if p.1 = p.2 then p.1 else if p.1 = 1 then p.2 else p.1) :=
      (Except.ok.inj h).symm
    have hp1len : (List.replicate (max s1.length s2.length - s1.length) 1 ++ s1).length
        = max s1.length s2.length := by
      rw [List.length_append, List.length_replicate]
      omega
    have hp2len : (List.replicate (max s1.length s2.length - s2.length) 1 ++ s2).length
        = max s1.length s2.length := by
      rw [List.length_append, List.length_replicate]
      omega
    have htlen : t.length = max s1.length s2.length := by
      rw [ht, List.length_map, List.length_zip, hp1len, hp2len]
      omega
    have hkey := bc_join_props _ _ hc
    refine ⟨htlen, ?_, ?_⟩
    · intro j hj
      have hps : (List.replicate (max s1.length s2.length - s1.length) 1 ++ s1).getD
          (max s1.length s2.length - s1.length + j) 0 = s1.getD j 0 := by
        rw [List.getD_append_right _ _ _ _ (by rw [List.length_replicate]; omega),
          List.length_replicate]
        congr 1
        omega
      have hk := (hkey (max s1.length s2.length - s1.length + j)
        (by omega) (by omega)).1
      rw [hps, ← ht] at hk
      have hoff : t.length - s1.length + j = max s1.length s2.length - s1.length + j := by
        omega
      rw [hoff]
      exact hk
    · intro j hj
      have hps : (List.replicate (max s1.length s2.length - s2.length) 1 ++ s2).getD
          (max s1.length s2.length - s2.length + j) 0 = s2.getD j 0 := by
        rw [List.getD_append_right _ _ _ _ (by rw [List.length_replicate]; omega),
          List.length_replicate]
        congr 1
        omega
      have hk := (hkey (max s1.length s2.length - s2.length + j)
        (by omega) (by omega)).2
      rw [hps, ← ht] at hk
      have hoff : t.length - s2.length + j = max s1.length s2.length - s2.length + j := by
        omega
      rw [hoff]
      exact hk
  · rw [if_neg hc] at h
    cases h

theorem wf_zeros (shape : List Nat) (dt : DType) : WF (Zeros shape dt) :=
  ⟨rfl, rfl, rfl, by simp [Zeros]⟩

theorem computeSize_le_prodList (l : List Nat) : computeSize l ≤ prodList l := by
  cases l with
  | nil => simp [computeSize]
  | cons d ds => simp [computeSize]

theorem forall₂_lt_of_getD :
    ∀ {l1 l2 : List Nat}, l1.length = l2.length →
      (∀ k, k < l1.length → l1.getD k 0 < l2.getD k 0) →
      List.Forall₂ (· < ·) l1 l2 := by
  intro l1
  induction l1 with
  | nil =>
    intro l2 hlen _
    have : l2 = [] := List.length_eq_zero.mp (by simpa using hlen.symm)
    subst this
    exact List.Forall₂.nil
  | cons x l1 ih =>
    intro l2 hlen hk
    cases l2 with
    | nil => simp at hlen
    | cons y l2 =>
      refine List.Forall₂.cons ?_ (ih (by simpa using hlen) ?_)
      · have := hk 0 (by simp)
        simpa using this
      · intro k hkk
        have := hk (k + 1) (by simpa using Nat.succ_lt_succ hkk)
        simpa using this

theorem srcMapIdx_forall₂ {a : NDArray} (hwf : WF a) {t : List Nat} {i : Nat}
    (hi : i < computeSize t) (hlen : a.shape.length ≤ t.length)
    (hcompat : ∀ j, j < a.shape.length →
      a.shape.getD j 0 = 1 ∨ a.shape.getD j 0 = t.getD (t.length - a.shape.length + j) 0) :
    List.Forall₂ (· < ·)
      (srcMapIdx a.shape (t.length - a.shape.length) (natUnravel t i)) a.shape := by
  have htpos : ∀ d ∈ t, 0 < d := by
    apply prodList_pos_mem
    have h1 : i < prodList t := lt_of_lt_of_le hi (computeSize_le_prodList t)
    omega
  have hdig := natUnravel_forall₂ t i htpos
  have hL : (srcMapIdx a.shape (t.length - a.shape.length) (natUnravel t i)).length
      = a.shape.length := by
    rw [srcMapIdx, List.length_map, List.length_range]
  apply forall₂_lt_of_getD hL
  intro k hk
  rw [hL] at hk
  have hgetD : (srcMapIdx a.shape (t.length - a.shape.length) (natUnravel t i)).getD k 0
      = (if a.shape.getD k 0 = 1 then 0
        else (natUnravel t i).getD (t.length - a.shape.length + k) 0) := by
    rw [List.getD_eq_getElem _ _ (by rw [hL]; exact hk)]
    simp only [srcMapIdx, List.getElem_map, List.getElem_range]
  rw [hgetD]
  by_cases hc : a.shape.getD k 0 = 1
  · rw [if_pos hc, hc]
    omega
  · rw [if_neg hc]
    have hce : a.shape.getD k 0 = t.getD (t.length - a.shape.length + k) 0 := by
      rcases hcompat k hk with h | h
      · exact absurd h hc
      · exact h
    have hbound : (natUnravel t i).getD (t.length - a.shape.length + k) 0 <
        t.getD (t.length - a.shape.length + k) 0 := by
      apply forall₂_lt_getD hdig
      rw [natUnravel_length]
      omega
    rw [hce]
    exact hbound

theorem broadcastTo_ok {a : NDArray} (hwf : WF a) (hdt : a.dtype = .Float64)
    {t : List Nat} (hlen : a.shape.length ≤ t.length)
    (hcompat : ∀ j, j < a.shape.length →
      a.shape.getD j 0 = 1 ∨ a.shape.getD j 0 = t.getD (t.length - a.shape.length + j) 0) :
    a.broadcastTo t = .ok (broadcastArr a t) := by
  unfold NDArray.broadcastTo
  rw [if_neg (by omega : ¬ t.length < a.shape.length)]
  have hguard : ((List.range a.shape.length).any (fun i =>
      decide (a.shape.getD i 0 ≠ 1 ∧
        a.shape.getD i 0 ≠ t.getD (t.length - a.shape.length + i) 0))) = false := by
    rw [List.any_eq_false]
    intro x hx
    rw [List.mem_range] at hx
    intro hcontra
    obtain ⟨c1, c2⟩ := of_decide_eq_true hcontra
    rcases hcompat x hx with h | h
    · exact c1 h
    · exact c2 h
  rw [if_neg (by rw [hguard]; exact fun hcontra => Bool.false_ne_true hcontra)]
  dsimp only
  have hbody : ∀ (st : NDArray) (i : Nat), i < computeSize t →
      st.shape = (Zeros t a.dtype).shape → st.strides = (Zeros t a.dtype).strides →
      st.dtype = (Zeros t a.dtype).dtype → st.size = (Zeros t a.dtype).size →
      st.ndim = (Zeros t a.dtype).ndim →
      st.data.length = (Zeros t a.dtype).data.length →
      (do
        let dstIndices := st.unravelIndex (i : Nat)
        let srcIndices := (List.range a.ndim).map (fun j =>
          if a.shape.getD j 0 = 1 then 0
          else dstIndices.getD (t.length - a.shape.length + j) 0)
        let val ← a.GetFloat64 srcIndices
        st.SetFloat64 val dstIndices) =
      st.SetFloat64
        (a.valAt (linIdx a.shape
          (srcMapIdx a.shape (t.length - a.shape.length) (natUnravel t i))))
        (st.unravelIndex (i : Nat)) := by
    intro st i hi h1 h2 h3 h4 h5 h6
    have h1t : st.shape = t := h1
    dsimp only
    rw [unravelIndex_natCast, h1t]
    have hsrc : (List.range a.ndim).map (fun j =>
        if a.shape.getD j 0 = 1 then (0 : Int)
        else ((natUnravel t i).map (fun (n : Nat) => (n : Int))).getD
          (t.length - a.shape.length + j) 0)
        = (srcMapIdx a.shape (t.length - a.shape.length) (natUnravel t i)).map
            (fun (n : Nat) => (n : Int)) := by
      rw [srcMapIdx, List.map_map]
      rw [(hwf.1 : a.ndim = a.shape.length)]
      apply List.map_congr_left
      intro j _
      simp only [Function.comp]
      by_cases hc : a.shape.getD j 0 = 1
      · rw [if_pos hc, if_pos hc]
        simp
      · rw [if_neg hc, if_neg hc, getD_map_natCast]
    rw [hsrc]
    rw [getF64_at hwf hdt (srcMapIdx_forall₂ hwf hi hlen hcompat)]
    rw [except_bind_ok]
  have hfold := foldlM_setLin (Zeros t a.dtype)
    (fun result i => do
      let dstIndices := result.unravelIndex (i : Nat)
      let srcIndices := (List.range a.ndim).map (fun j =>
        if a.shape.getD j 0 = 1 then 0
        else dstIndices.getD (t.length - a.shape.length + j) 0)
      let val ← a.GetFloat64 srcIndices
      result.SetFloat64 val dstIndices)
    (fun i => a.valAt (linIdx a.shape
      (srcMapIdx a.shape (t.length - a.shape.length) (natUnravel t i))))
    (computeSize t) (wf_zeros t a.dtype) hdt (le_refl _) hbody
  rw [writePrefix_full _ _ _ (by simp [Zeros])] at hfold
  exact hfold

theorem getD_map_range (g : Nat → ℚ) {n i : Nat} (hi : i < n) :
    ((List.range n).map g).getD i 0 = g i := by
  rw [List.getD_eq_getElem _ _ (by rw [List.length_map, List.length_range]; exact hi)]
  rw [List.getElem_map, List.getElem_range]

theorem wf_broadcastArr (a : NDArray) (t : List Nat) : WF (broadcastArr a t) := by
  refine ⟨rfl, rfl, rfl, ?_⟩
  simp [broadcastArr, broadcastData]

theorem broadcastArr_valAt (a : NDArray) (t : List Nat) {i : Nat}
    (hi : i < computeSize t) :
    (broadcastArr a t).valAt i =
      a.valAt (linIdx a.shape
        (srcMapIdx a.shape (t.length - a.shape.length) (natUnravel t i))) := by
  unfold broadcastArr broadcastData NDArray.valAt
  dsimp only
  rw [getD_map_range _ hi]

theorem binOpLoop_ok {a b : NDArray} (hwa : WF a) (hwb : WF b)
    (hda : a.dtype = .Float64) (hdb : b.dtype = .Float64)
    {t : List Nat} (hbs : broadcastShapes a.shape b.shape = .ok t) (op : ℚ → ℚ → ℚ) :
    a.binOpLoop b op = .ok
      { data := (List.range (computeSize t)).map (fun i =>
          op ((broadcastArr a t).valAt i) ((broadcastArr b t).valAt i))
        shape := t
        strides := computeStrides t a.dtype.ItemSize
        dtype := a.dtype
        size := computeSize t
        ndim := t.length } := by
  obtain ⟨htlen, hca, hcb⟩ := broadcastShapes_ok_props hbs
  have hla : a.shape.length ≤ t.length := by omega
  have hlb : b.shape.length ≤ t.length := by omega
  unfold NDArray.binOpLoop
  rw [hbs, except_bind_ok]
  rw [broadcastTo_ok hwa hda hla hca, except_bind_ok]
  rw [broadcastTo_ok hwb hdb hlb hcb, except_bind_ok]
  dsimp only
  have hbody : ∀ (st : NDArray) (i : Nat), i < computeSize t →
      st.shape = (Zeros t a.dtype).shape → st.strides = (Zeros t a.dtype).strides →
      st.dtype = (Zeros t a.dtype).dtype → st.size = (Zeros t a.dtype).size →
      st.ndim = (Zeros t a.dtype).ndim →
      st.data.length = (Zeros t a.dtype).data.length →
      (do
        let indices := st.unravelIndex (i : Nat)
        let valA ← (broadcastArr a t).GetFloat64 indices
        let valB ← (broadcastArr b t).GetFloat64 indices
        st.SetFloat64 (op valA valB) indices) =
      st.SetFloat64 (op ((broadcastArr a t).valAt i) ((broadcastArr b t).valAt i))
        (st.unravelIndex (i : Nat)) := by
    intro st i hi h1 h2 h3 h4 h5 h6
    have h1t : st.shape = t := h1
    dsimp only
    rw [unravelIndex_natCast, h1t]
    have hgA := getF64_lin (wf_broadcastArr a t) hda
      (show i < (broadcastArr a t).size from hi)
    rw [unravelIndex_natCast] at hgA
    have hgB := getF64_lin (wf_broadcastArr b t) hdb
      (show i < (broadcastArr b t).size from hi)
    rw [unravelIndex_natCast] at hgB
    rw [show (broadcastArr a t).shape = t from rfl] at hgA
    rw [show (broadcastArr b t).shape = t from rfl] at hgB
    rw [hgA, except_bind_ok, hgB, except_bind_ok]
  have hfold := foldlM_setLin (Zeros t a.dtype)
    (fun result i => do
      let indices := result.unravelIndex (i : Nat)
      let valA ← (broadcastArr a t).GetFloat64 indices
      let valB ← (broadcastArr b t).GetFloat64 indices
      result.SetFloat64 (op valA valB) indices)
    (fun i => op ((broadcastArr a t).valAt i) ((broadcastArr b t).valAt i))
    (computeSize t) (wf_zeros t a.dtype) hda (le_refl _) hbody
  rw [writePrefix_full _ _ _ (by simp [Zeros])] at hfold
  exact hfold

theorem gt_ok_dtype {a b r : NDArray} (h : a.Gt b = .ok r) : r.dtype = .Bool := by
  unfold NDArray.Gt at h
  cases h1 : broadcastShapes a.shape b.shape with
  | error e => rw [h1, except_bind_err] at h; cases h
  | ok t =>
    rw [h1, except_bind_ok] at h
    cases h2 : a.broadcastTo t with
    | error e => rw [h2, except_bind_err] at h; cases h
    | ok aB =>
      rw [h2, except_bind_ok] at h
      cases h3 : b.broadcastTo t with
      | error e => rw [h3, except_bind_err] at h; cases h
      | ok bB =>
        rw [h3, except_bind_ok] at h
        dsimp only at h
        have hP : ∀ (st : NDArray) (i : Nat) (st2 : NDArray),
            (do
              let indices := st.unravelIndex (i : Nat)
              let valA ← aB.GetFloat64 indices
              let valB ← bB.GetFloat64 indices
              if valA > valB then st.SetFloat64 1 indices else .ok st) = .ok st2 →
            st2.shape = st.shape ∧ st2.dtype = st.dtype := by
          intro st i st2 hb
          dsimp only at hb
          cases hga : aB.GetFloat64 (st.unravelIndex (i : Nat)) with
          | error e => rw [hga, except_bind_err] at hb; cases hb
          | ok vA =>
            rw [hga, except_bind_ok] at hb
            cases hgb : bB.GetFloat64 (st.unravelIndex (i : Nat)) with
            | error e => rw [hgb, except_bind_err] at hb; cases hb
            | ok vB =>
              rw [hgb, except_bind_ok] at hb
              by_cases hcmp : vA > vB
              · rw [if_pos hcmp] at hb
                obtain ⟨hs, -, hd, -⟩ := setF64_ok_fields hb
                exact ⟨hs, hd⟩
              · rw [if_neg hcmp] at hb
                rw [← Except.ok.inj hb]
                exact ⟨rfl, rfl⟩
        have hfold := foldlM_fields hP (List.range (Zeros t .Bool).size) (Zeros t .Bool) r h
        exact hfold.2

theorem lt_ok_dtype {a b r : NDArray} (h : a.Lt b = .ok r) : r.dtype = .Bool := by
  unfold NDArray.Lt at h
  cases h1 : broadcastShapes a.shape b.shape with
  | error e => rw [h1, except_bind_err] at h; cases h
  | ok t =>
    rw [h1, except_bind_ok] at h
    cases h2 : a.broadcastTo t with
    | error e => rw [h2, except_bind_err] at h; cases h
    | ok aB =>
      rw [h2, except_bind_ok] at h
      cases h3 : b.broadcastTo t with
      | error e => rw [h3, except_bind_err] at h; cases h
      | ok bB =>
        rw [h3, except_bind_ok] at h
        dsimp only at h
        have hP : ∀ (st : NDArray) (i : Nat) (st2 : NDArray),
            (do
              let indices := st.unravelIndex (i : Nat)
              let valA ← aB.GetFloat64 indices
              let valB ← bB.GetFloat64 indices
              if valA < valB then st.SetFloat64 1 indices else .ok st) = .ok st2 →
            st2.shape = st.shape ∧ st2.dtype = st.dtype := by
          intro st i st2 hb
          dsimp only at hb
          cases hga : aB.GetFloat64 (st.unravelIndex (i : Nat)) with
          | error e => rw [hga, except_bind_err] at hb; cases hb
          | ok vA =>
            rw [hga, except_bind_ok] at hb
            cases hgb : bB.GetFloat64 (st.unravelIndex (i : Nat)) with
            | error e => rw [hgb, except_bind_err] at hb; cases hb
            | ok vB =>
              rw [hgb, except_bind_ok] at hb
              by_cases hcmp : vA < vB
              · rw [if_pos hcmp] at hb
                obtain ⟨hs, -, hd, -⟩ := setF64_ok_fields hb
                exact ⟨hs, hd⟩
              · rw [if_neg hcmp] at hb
                rw [← Except.ok.inj hb]
                exact ⟨rfl, rfl⟩
        have hfold := foldlM_fields hP (List.range (Zeros t .Bool).size) (Zeros t .Bool) r h
        exact hfold.2

/-- Counterexample for claim C4 as stated: the comparison operator Gt is a
binary elementwise operator of the engine, yet on Float64 operands it
returns a Bool-typed array, not an array typed as the left operand. -/
theorem claim_C4_counterexample :
    (do
      let a ← FromSliceFloat64 [2] [1]
      let b ← FromSliceFloat64 [1] [1]
      let c ← a.Gt b
      Except.ok (c.dtype, a.dtype)) = .ok (DType.Bool, DType.Float64) ∧
    DType.Bool ≠ DType.Float64 :=
  ⟨by with_unfolding_all decide, by decide⟩

/-- Claim C4 (amended): the concrete broadcast addition example holds, and
every binary elementwise operator computes the broadcast shape and
materializes both operands at that shape via the stride-0 mapping before
applying the operator elementwise; the arithmetic operators Add, Sub, Mul
and Div (all instances of the shared loop) type the fresh result as the
dtype of the left operand, while the comparisons Gt and Lt type it as
Bool. -/
theorem claim_C4 :
    (do
      let a ← FromSliceFloat64 [1, 2, 3, 4, 5, 6] [2, 3]
      let b ← FromSliceFloat64 [10, 20, 30] [1, 3]
      a.Add b) = .ok ⟨[11, 22, 33, 14, 25, 36], [2, 3], [24, 8], .Float64, 6, 2⟩ ∧
    (∀ (a b : NDArray) (t : List Nat), WF a → WF b →
      a.dtype = .Float64 → b.dtype = .Float64 →
      broadcastShapes a.shape b.shape = .ok t →
      a.broadcastTo t = .ok (broadcastArr a t) ∧
      b.broadcastTo t = .ok (broadcastArr b t) ∧
      ∀ op : ℚ → ℚ → ℚ,
        a.binOpLoop b op = .ok
          { data := (List.range (computeSize t)).map (fun i =>
              op ((broadcastArr a t).valAt i) ((broadcastArr b t).valAt i))
            shape := t
            strides := computeStrides t a.dtype.ItemSize
            dtype := a.dtype
            size := computeSize t
            ndim := t.length }) ∧
    (∀ a b : NDArray, a.Add b = a.binOpLoop b (· + ·) ∧
      a.Sub b = a.binOpLoop b (· - ·) ∧
      a.Mul b = a.binOpLoop b (· * ·) ∧
      a.Div b = a.binOpLoop b (· / ·)) ∧
    (∀ a b r : NDArray, (a.Gt b = .ok r → r.dtype = .Bool) ∧
      (a.Lt b = .ok r → r.dtype = .Bool)) := by
  refine ⟨by with_unfolding_all decide, ?_,
    fun a b => ⟨rfl, rfl, rfl, rfl⟩,
    fun a b r => ⟨gt_ok_dtype, lt_ok_dtype⟩⟩
  intro a b t hwa hwb hda hdb hbs
  obtain ⟨htlen, hca, hcb⟩ := broadcastShapes_ok_props hbs
  exact ⟨broadcastTo_ok hwa hda (by omega) hca,
    broadcastTo_ok hwb hdb (by omega) hcb,
    fun op => binOpLoop_ok hwa hwb hda hdb hbs op⟩

/-- Witness for claim C4: the (2,3) and (1,3) arrays of the broadcasting
example, materialized and combined at shape (2,3). -/
theorem claim_C4_witness :
    (⟨[1, 2, 3, 4, 5, 6], [2, 3], [24, 8], .Float64, 6, 2⟩ : NDArray).broadcastTo [2, 3] =
      .ok (broadcastArr ⟨[1, 2, 3, 4, 5, 6], [2, 3], [24, 8], .Float64, 6, 2⟩ [2, 3]) ∧
    (⟨[10, 20, 30], [1, 3], [24, 8], .Float64, 3, 2⟩ : NDArray).broadcastTo [2, 3] =
      .ok (broadcastArr ⟨[10, 20, 30], [1, 3], [24, 8], .Float64, 3, 2⟩ [2, 3]) ∧
    ∀ op : ℚ → ℚ → ℚ,
      NDArray.binOpLoop ⟨[1, 2, 3, 4, 5, 6], [2, 3], [24, 8], .Float64, 6, 2⟩
          ⟨[10, 20, 30], [1, 3], [24, 8], .Float64, 3, 2⟩ op = .ok
        { data := (List.range (computeSize [2, 3])).map (fun i =>
            op ((broadcastArr ⟨[1, 2, 3, 4, 5, 6], [2, 3], [24, 8], .Float64, 6, 2⟩ [2, 3]).valAt i)
              ((broadcastArr ⟨[10, 20, 30], [1, 3], [24, 8], .Float64, 3, 2⟩ [2, 3]).valAt i))
          shape := [2, 3]
          strides := computeStrides [2, 3] (DType.Float64.ItemSize)
          dtype := .Float64
          size := computeSize [2, 3]
          ndim := 2 } :=
  claim_C4.2.1 ⟨[1, 2, 3, 4, 5, 6], [2, 3], [24, 8], .Float64, 6, 2⟩
    ⟨[10, 20, 30], [1, 3], [24, 8], .Float64, 3, 2⟩ [2, 3]
    ⟨rfl, rfl, rfl, rfl⟩ ⟨rfl, rfl, rfl, rfl⟩ rfl rfl (by decide)

/-!
Claim C7 groundwork: the inverse of the row-major unravel on in-range
multi-indices, the drop-axis folds of SumAxis, and the accumulation buffer.
-/

theorem eraseIdx_map (f : Nat → Int) : ∀ (l : List Nat) (k : Nat),
    (l.map f).eraseIdx k = (l.eraseIdx k).map f := by
  intro l
  induction l with
  | nil => intro k; rfl
  | cons x xs ih =>
    intro k
    cases k with
    | zero => simp [List.eraseIdx_cons_zero]
    | succ j => simp only [List.map_cons, List.eraseIdx_cons_succ, ih]

theorem getD_replicate_zero : ∀ (n k : Nat), (List.replicate n (0 : ℚ)).getD k 0 = 0 := by
  intro n
  induction n with
  | zero => intro k; rfl
  | succ n ih =>
    intro k
    cases k with
    | zero => rfl
    | succ j => simpa [List.replicate] using ih j

theorem map_getD_range {α : Type} (l : List α) (d : α) :
    (List.range l.length).map (fun i => l.getD i d) = l := by
  apply List.ext_getElem
  · simp
  · intro i h1 h2
    simp only [List.getElem_map, List.getElem_range]
    rw [List.getD_eq_getElem _ _ h2]

theorem foldl_dropAx {α : Type} (l : List α) (d : α) (ax : Nat) : ∀ n : Nat,
    (List.range n).foldl (fun acc i => if i = ax then acc else acc ++ [l.getD i d]) [] =
      ((List.range n).map (fun i => l.getD i d)).eraseIdx ax := by
  intro n
  induction n with
  | zero => rfl
  | succ n ih =>
    rw [List.range_succ, List.foldl_append, ih, List.map_append, List.foldl_cons, List.foldl_nil,
      List.map_singleton]
    by_cases hn : n = ax
    · subst hn
      rw [if_pos rfl, List.eraseIdx_append_of_length_le (by simp) _]
      rw [List.eraseIdx_eq_self.mpr (by simp)]
      simp
    · rw [if_neg hn]
      rcases Nat.lt_or_ge ax n with hlt | hge
      · rw [List.eraseIdx_append_of_lt_length (by simpa using hlt) _]
      · have hgt : n < ax := by omega
        rw [List.eraseIdx_append_of_length_le (by simpa using hgt.le) _,
          List.eraseIdx_eq_self.mpr (by simp; omega),
          List.eraseIdx_eq_self.mpr (by simp; omega)]

theorem foldl_dropAx_shape (l : List Nat) (n ax : Nat) (hn : n = l.length) :
    (List.range n).foldl (fun acc i => if i = ax then acc else acc ++ [l.getD i 0]) [] =
      l.eraseIdx ax := by
  subst hn
  rw [foldl_dropAx, map_getD_range]

theorem linIdx_lt : ∀ {w ds : List Nat}, List.Forall₂ (· < ·) w ds →
    linIdx ds w < prodList ds := by
  intro w ds h
  induction h with
  | nil => simp [linIdx, prodList]
  | @cons i d ws ds hid htail ih =>
    show i * prodList ds + linIdx ds ws < prodList (d :: ds)
    rw [prodList_cons]
    calc i * prodList ds + linIdx ds ws < i * prodList ds + prodList ds := by omega
      _ = (i + 1) * prodList ds := by ring
      _ ≤ d * prodList ds := Nat.mul_le_mul_right _ (by omega)

theorem natUnravel_add_mul : ∀ (ds : List Nat) (r k : Nat),
    natUnravel ds (r + k * prodList ds) = natUnravel ds r := by
  intro ds
  induction ds with
  | nil => intro r k; rfl
  | cons d ds ih =>
    intro r k
    simp only [natUnravel, natUnravelFrom, prodList_cons]
    rw [natUnravelFrom_snd, natUnravelFrom_snd]
    have h1 : r + k * (d * prodList ds) = r + (k * d) * prodList ds := by ring
    rw [h1]
    refine List.cons_eq_cons.mpr ⟨?_, ?_⟩
    · rcases Nat.eq_zero_or_pos (prodList ds) with hp | hp
      · rw [hp]
        simp
      · rw [Nat.add_mul_div_right _ _ hp, Nat.add_mul_mod_self_right]
    · have h2 := ih r (k * d)
      simpa [natUnravel] using h2

theorem natUnravel_linIdx : ∀ {w ds : List Nat}, List.Forall₂ (· < ·) w ds →
    natUnravel ds (linIdx ds w) = w := by
  intro w ds h
  induction h with
  | nil => rfl
  | @cons i d ws ds hid htail ih =>
    show natUnravel (d :: ds) (i * prodList ds + linIdx ds ws) = i :: ws
    simp only [natUnravel, natUnravelFrom]
    rw [natUnravelFrom_snd]
    have hP : 0 < prodList ds := by
      have := linIdx_lt htail
      omega
    have hdiv : (i * prodList ds + linIdx ds ws) / prodList ds = i := by
      rw [Nat.add_comm, Nat.add_mul_div_right _ _ hP, Nat.div_eq_of_lt (linIdx_lt htail)]
      omega
    refine List.cons_eq_cons.mpr ⟨?_, ?_⟩
    · rw [hdiv, Nat.mod_eq_of_lt hid]
    · have h3 : i * prodList ds + linIdx ds ws = linIdx ds ws + i * prodList ds := by ring
      rw [h3]
      have h4 := natUnravel_add_mul ds (linIdx ds ws) i
      simpa [natUnravel] using h4.trans ih

theorem linIdx_inj {w1 w2 ds : List Nat} (h1 : List.Forall₂ (· < ·) w1 ds)
    (h2 : List.Forall₂ (· < ·) w2 ds) (he : linIdx ds w1 = linIdx ds w2) : w1 = w2 := by
  rw [← natUnravel_linIdx h1, he, natUnravel_linIdx h2]

theorem forall₂_eraseIdx : ∀ {l1 l2 : List Nat}, List.Forall₂ (· < ·) l1 l2 →
    ∀ ax : Nat, List.Forall₂ (· < ·) (l1.eraseIdx ax) (l2.eraseIdx ax) := by
  intro l1 l2 h
  induction h with
  | nil => intro ax; simp [List.eraseIdx_nil]
  | @cons a b l1 l2 hab htail ih =>
    intro ax
    cases ax with
    | zero => simpa [List.eraseIdx_cons_zero] using htail
    | succ k =>
      simp only [List.eraseIdx_cons_succ]
      exact List.Forall₂.cons hab (ih k)

theorem computeSize_eq_prodList {l : List Nat} (h : l ≠ []) :
    computeSize l = prodList l := by
  cases l with
  | nil => exact absurd rfl h
  | cons d ds => rfl

theorem eraseIdx_shape_ne_nil {l : List Nat} (h2 : 2 ≤ l.length) (ax : Nat) :
    l.eraseIdx ax ≠ [] := by
  intro hnil
  have h := List.length_eraseIdx l ax
  rw [hnil] at h
  simp only [List.length_nil] at h
  by_cases hax : ax < l.length
  · rw [if_pos hax] at h
    omega
  · rw [if_neg hax] at h
    omega

theorem sumAxisData_length (a : NDArray) (ax : Nat) : ∀ N,
    (sumAxisData a ax N).length = computeSize (a.shape.eraseIdx ax) := by
  intro N
  induction N with
  | zero => simp [sumAxisData]
  | succ N ih => simp [sumAxisData, List.length_set, ih]

theorem sumAxisData_getD (a : NDArray) (ax : Nat) (hwf : WF a)
    (h2 : 2 ≤ a.shape.length) {m : List Nat}
    (hm : List.Forall₂ (· < ·) m (a.shape.eraseIdx ax)) :
    ∀ N, N ≤ a.size →
      (sumAxisData a ax N).getD (linIdx (a.shape.eraseIdx ax) m) 0 =
        (((List.range N).filter
          (fun j => (natUnravel a.shape j).eraseIdx ax = m)).map a.valAt).sum := by
  intro N
  induction N with
  | zero =>
    intro hN
    simp only [sumAxisData, List.range_zero, List.filter_nil, List.map_nil, List.sum_nil]
    exact getD_replicate_zero _ _
  | succ N ih =>
    intro hN
    have hNlt : N < a.size := hN
    have hple : a.size ≤ prodList a.shape := size_le_prodList hwf
    have hpos : ∀ d ∈ a.shape, 0 < d := prodList_pos_mem (by omega)
    have hw := natUnravel_forall₂ a.shape N hpos
    have hwm := forall₂_eraseIdx hw ax
    have hdlen : (sumAxisData a ax N).length = computeSize (a.shape.eraseIdx ax) :=
      sumAxisData_length a ax N
    have hsz : computeSize (a.shape.eraseIdx ax) = prodList (a.shape.eraseIdx ax) :=
      computeSize_eq_prodList (eraseIdx_shape_ne_nil h2 ax)
    have hkm : linIdx (a.shape.eraseIdx ax) m < (sumAxisData a ax N).length := by
      rw [hdlen, hsz]
      exact linIdx_lt hm
    rw [List.range_succ, List.filter_append, List.map_append, List.sum_append]
    by_cases hcase : (natUnravel a.shape N).eraseIdx ax = m
    · have hfil : List.filter (fun j => decide ((natUnravel a.shape j).eraseIdx ax = m)) [N]
          = [N] := by
        simp [hcase]
      show (sumAxisData a ax (N + 1)).getD (linIdx (a.shape.eraseIdx ax) m) 0 = _
      rw [hfil]
      simp only [sumAxisData, hcase]
      rw [List.getD_eq_getElem?_getD, List.getElem?_set_self hkm]
      simp only [Option.getD_some, List.map_cons, List.map_nil, List.sum_cons, List.sum_nil]
      rw [ih (le_of_lt hNlt)]
      ring
    · have hfil : List.filter (fun j => decide ((natUnravel a.shape j).eraseIdx ax = m)) [N]
          = [] := by
        simp [hcase]
      show (sumAxisData a ax (N + 1)).getD (linIdx (a.shape.eraseIdx ax) m) 0 = _
      rw [hfil]
      have hne : linIdx (a.shape.eraseIdx ax) ((natUnravel a.shape N).eraseIdx ax) ≠
          linIdx (a.shape.eraseIdx ax) m := by
        intro he
        exact hcase (linIdx_inj hwm hm he)
      simp only [sumAxisData]
      rw [List.getD_eq_getElem?_getD, List.getElem?_set_ne hne,
        ← List.getD_eq_getElem?_getD, ih (le_of_lt hNlt)]
      simp

theorem sumAxis_loop (a : NDArray) (ax : Nat) (hwf : WF a) (hdt : a.dtype = .Float64)
    (h2 : 2 ≤ a.shape.length) :
    ∀ N, N ≤ a.size →
      (List.range N).foldlM (fun result i => do
        let srcIndices := a.unravelIndex (i : Nat)
        let dstIndices := (List.range a.ndim).foldl (fun acc j =>
          if j = ax then acc else acc ++ [srcIndices.getD j 0]) ([] : List Int)
        let val ← a.GetFloat64 srcIndices
        let currentSum ← result.GetFloat64 dstIndices
        result.SetFloat64 (currentSum + val) dstIndices)
        (Zeros (a.shape.eraseIdx ax) .Float64) =
      .ok { Zeros (a.shape.eraseIdx ax) .Float64 with data := sumAxisData a ax N } := by
  intro N
  induction N with
  | zero => intro h0; rfl
  | succ N ih =>
    intro hN
    have hNlt : N < a.size := hN
    have hple : a.size ≤ prodList a.shape := size_le_prodList hwf
    have hpos : ∀ d ∈ a.shape, 0 < d := prodList_pos_mem (by omega)
    have hw := natUnravel_forall₂ a.shape N hpos
    have hwm := forall₂_eraseIdx hw ax
    have hnd : a.ndim = a.shape.length := hwf.1
    rw [List.range_succ, List.foldlM_append, ih (le_of_lt hNlt), except_bind_ok]
    simp only [List.foldlM_cons, List.foldlM_nil]
    rw [getF64_lin hwf hdt hNlt, except_bind_ok]
    rw [unravelIndex_natCast]
    rw [foldl_dropAx ((natUnravel a.shape N).map (fun (n : Nat) => (n : Int))) 0 ax a.ndim]
    have hlen : a.ndim = ((natUnravel a.shape N).map (fun (n : Nat) => (n : Int))).length := by
      rw [List.length_map, natUnravel_length, hnd]
    rw [hlen, map_getD_range, eraseIdx_map]
    have hwfst : WF { Zeros (a.shape.eraseIdx ax) .Float64 with data := sumAxisData a ax N } := by
      refine wf_fields (wf_zeros (a.shape.eraseIdx ax) .Float64) rfl rfl rfl rfl rfl ?_
      show (sumAxisData a ax N).length = (List.replicate (computeSize (a.shape.eraseIdx ax)) (0 : ℚ)).length
      rw [sumAxisData_length, List.length_replicate]
    rw [getF64_at hwfst rfl hwm, except_bind_ok]
    rw [setF64_at hwfst rfl hwm, except_bind_ok]
    rfl

/-- Counterexample for claim C7 as stated: on a one-dimensional array the
claimed shape rule fails — SumAxis(0) on shape (3,) returns a result of
shape (1,), not the empty shape obtained by removing the reduced axis. -/
theorem claim_C7_counterexample :
    (do
      let a ← FromSliceFloat64 [1, 2, 3] [3]
      let r ← a.SumAxis 0
      Except.ok r.shape) = .ok [1] ∧ ([1] : List Nat) ≠ ([3] : List Nat).eraseIdx 0 :=
  ⟨by with_unfolding_all decide, by decide⟩

/-- Claim C7 (amended): SumAxis(0) on the (2,3) array [1..6] yields shape
(3,) with values [5,7,9] and SumAxis(1) yields shape (2,) with values
[6,15]; for every Float64 array of rank at least 2 and every in-bounds
axis, the result shape is the source shape with the reduced axis removed
and each destination slot is the sum of the source elements whose
multi-index drops (at the reduced axis) to that slot's multi-index.  (For
rank-1 arrays the code instead collapses to a one-element array of shape
(1,).) -/
theorem claim_C7 :
    (do
      let a ← FromSliceFloat64 [1, 2, 3, 4, 5, 6] [2, 3]
      a.SumAxis 0) = .ok ⟨[5, 7, 9], [3], [8], .Float64, 3, 1⟩ ∧
    (do
      let a ← FromSliceFloat64 [1, 2, 3, 4, 5, 6] [2, 3]
      a.SumAxis 1) = .ok ⟨[6, 15], [2], [8], .Float64, 2, 1⟩ ∧
    ∀ (a : NDArray) (ax : Nat), WF a → a.dtype = .Float64 →
      2 ≤ a.shape.length → ax < a.shape.length →
      ∃ res, a.SumAxis (ax : Int) = .ok res ∧
        res.shape = a.shape.eraseIdx ax ∧
        res.dtype = .Float64 ∧
        res.size = computeSize (a.shape.eraseIdx ax) ∧
        ∀ m : List Nat, List.Forall₂ (· < ·) m (a.shape.eraseIdx ax) →
          res.valAt (linIdx (a.shape.eraseIdx ax) m) =
            (((List.range a.size).filter
              (fun j => (natUnravel a.shape j).eraseIdx ax = m)).map a.valAt).sum := by
  refine ⟨by with_unfolding_all decide, by with_unfolding_all decide, ?_⟩
  intro a ax hwf hdt h2 hax
  have hnd : a.ndim = a.shape.length := hwf.1
  refine ⟨{ Zeros (a.shape.eraseIdx ax) .Float64 with data := sumAxisData a ax a.size },
    ?_, rfl, rfl, rfl, ?_⟩
  · unfold NDArray.SumAxis
    dsimp only
    have h0 : ¬ ((ax : Int) < 0) := by omega
    rw [if_neg h0]
    have h1 : ¬ ((ax : Int) < 0 ∨ (a.ndim : Int) ≤ (ax : Int)) := by
      rw [hnd]
      omega
    rw [if_neg h1]
    rw [Int.toNat_natCast]
    rw [foldl_dropAx_shape a.shape a.ndim ax hnd]
    rw [if_neg (eraseIdx_shape_ne_nil h2 ax)]
    rw [hdt]
    exact sumAxis_loop a ax hwf hdt h2 a.size (le_refl _)
  · intro m hm
    exact sumAxisData_getD a ax hwf h2 hm a.size (le_refl _)

/-- Witness for claim C7: the general axis-reduction theorem applied to the
(2,3) array [1..6] along axis 0. -/
theorem claim_C7_witness :
    ∃ res, (⟨[1, 2, 3, 4, 5, 6], [2, 3], [24, 8], .Float64, 6, 2⟩ : NDArray).SumAxis
        ((0 : Nat) : Int) = .ok res ∧
      res.shape = ([2, 3] : List Nat).eraseIdx 0 ∧
      res.dtype = .Float64 ∧
      res.size = computeSize (([2, 3] : List Nat).eraseIdx 0) ∧
      ∀ m : List Nat, List.Forall₂ (· < ·) m (([2, 3] : List Nat).eraseIdx 0) →
        res.valAt (linIdx (([2, 3] : List Nat).eraseIdx 0) m) =
          (((List.range (6 : Nat)).filter
            (fun j => (natUnravel ([2, 3] : List Nat) j).eraseIdx 0 = m)).map
              (NDArray.valAt ⟨[1, 2, 3, 4, 5, 6], [2, 3], [24, 8], .Float64, 6, 2⟩)).sum :=
  claim_C7.2.2 ⟨[1, 2, 3, 4, 5, 6], [2, 3], [24, 8], .Float64, 6, 2⟩ 0
    (by decide) rfl (by decide) (by decide)

/-!
Claim C5 groundwork: row-major access to 2-D entries, the filtered index
lists of getMinor, and grid buffers.
-/

theorem linIdx_pair (r c i j : Nat) : linIdx [r, c] [i, j] = i * c + j := by
  simp [linIdx, prodList]

theorem getF64_rect {a : NDArray} {r c : Nat} (hwf : WF a) (hdt : a.dtype = .Float64)
    (hsh : a.shape = [r, c]) {i j : Nat} (hi : i < r) (hj : j < c) :
    a.GetFloat64 [(i : Int), (j : Int)] = .ok (entryAt a c i j) := by
  have hfa : List.Forall₂ (· < ·) [i, j] a.shape := by
    rw [hsh]
    exact List.Forall₂.cons hi (List.Forall₂.cons hj List.Forall₂.nil)
  have h := getF64_at hwf hdt hfa
  simp only [List.map_cons, List.map_nil] at h
  rw [h, hsh, linIdx_pair]
  rfl

theorem setF64_rect {a : NDArray} {r c : Nat} (hwf : WF a) (hdt : a.dtype = .Float64)
    (hsh : a.shape = [r, c]) {i j : Nat} (hi : i < r) (hj : j < c) (v : ℚ) :
    a.SetFloat64 v [(i : Int), (j : Int)] = .ok { a with data := a.data.set (i * c + j) v } := by
  have hfa : List.Forall₂ (· < ·) [i, j] a.shape := by
    rw [hsh]
    exact List.Forall₂.cons hi (List.Forall₂.cons hj List.Forall₂.nil)
  have h := setF64_at hwf hdt hfa v
  simp only [List.map_cons, List.map_nil] at h
  rw [h, hsh, linIdx_pair]

theorem filter_range_ne : ∀ (n col : Nat), col < n →
    (List.range n).filter (fun j => ¬ j = col) =
      (List.range (n - 1)).map (fun j => if j < col then j else j + 1) := by
  intro n
  induction n with
  | zero => intro col h; exact absurd h (Nat.not_lt_zero col)
  | succ m ih =>
    intro col hcol
    rw [List.range_succ, List.filter_append]
    by_cases hc : col = m
    · subst hc
      have h1 : (List.range col).filter (fun j => ¬ j = col) = List.range col := by
        rw [List.filter_eq_self]
        intro a ha
        rw [List.mem_range] at ha
        simp
        omega
      have h2 : List.filter (fun j => ¬ j = col) [col] = [] := by simp
      rw [h1, h2, List.append_nil]
      have h3 : ∀ j ∈ List.range col, j = (if j < col then j else j + 1) := by
        intro j hj
        rw [if_pos (List.mem_range.mp hj)]
      rw [show col + 1 - 1 = col from rfl]
      have h4 : List.map (fun j => if j < col then j else j + 1) (List.range col) =
          List.range col := by
        rw [List.map_congr_left (fun j hj => (h3 j hj).symm)]
        simp
      rw [h4]
    · have hlt : col < m := by omega
      rw [ih col hlt]
      have h2 : List.filter (fun j => ¬ j = col) [m] = [m] := by
        simp
        omega
      rw [h2, show m + 1 - 1 = m from rfl]
      have hm : m = (m - 1) + 1 := by omega
      rw [hm, List.range_succ, List.map_append, ← hm]
      congr 1
      rw [List.map_cons, List.map_nil, if_neg (by omega)]
      rw [show m - 1 + 1 = m by omega]

theorem flatMap_grid_length (c : Nat) : ∀ (r : Nat) (g : Nat → Nat → ℚ),
    ((List.range r).flatMap (fun i => (List.range c).map (g i))).length = r * c := by
  intro r
  induction r with
  | zero => intro g; simp
  | succ m ih =>
    intro g
    rw [List.range_succ, List.flatMap_append, List.length_append, ih,
      List.flatMap_cons, List.flatMap_nil, List.append_nil, List.length_map, List.length_range]
    ring

theorem flatMap_grid_getD (c : Nat) : ∀ (r : Nat) (g : Nat → Nat → ℚ) (i j : Nat),
    i < r → j < c →
    ((List.range r).flatMap (fun i => (List.range c).map (g i))).getD (i * c + j) 0 = g i j := by
  intro r
  induction r with
  | zero => intro g i j hi hj; exact absurd hi (Nat.not_lt_zero i)
  | succ m ih =>
    intro g i j hi hj
    rw [List.range_succ_eq_map, List.flatMap_cons, List.flatMap_map]
    cases i with
    | zero =>
      rw [Nat.zero_mul, Nat.zero_add]
      rw [List.getD_append _ _ _ j (by rw [List.length_map, List.length_range]; exact hj)]
      rw [List.getD_eq_getElem _ _ (by rw [List.length_map, List.length_range]; exact hj)]
      simp
    | succ s =>
      have harith : (s + 1) * c + j = ((List.range c).map (g 0)).length + (s * c + j) := by
        rw [List.length_map, List.length_range]
        ring
      rw [harith, List.getD_append_right _ _ _ _ (by omega), Nat.add_sub_cancel_left]
      exact ih (fun b => g (Nat.succ b)) s j (by omega) hj

theorem minor_inner {a : NDArray} {n : Nat} (hwf : WF a) (hdt : a.dtype = .Float64)
    (hsh : a.shape = [n, n]) {i : Nat} (hi : i < n) (col : Nat) :
    ∀ (l : List Nat), (∀ j ∈ l, j < n) → ∀ (acc : List ℚ),
      l.foldlM (fun acc2 j =>
        if j = col then .ok acc2
        else do
          let v ← a.GetFloat64 [(i : Int), (j : Int)]
          .ok (acc2 ++ [v])) acc =
      .ok (acc ++ (l.filter (fun j => ¬ j = col)).map (fun j => entryAt a n i j)) := by
  intro l
  induction l with
  | nil =>
    intro hmem acc
    show Except.ok acc = _
    simp
  | cons x l ih =>
    intro hmem acc
    rw [List.foldlM_cons]
    by_cases hx : x = col
    · rw [if_pos hx, except_bind_ok, ih (fun j hj => hmem j (List.mem_cons_of_mem _ hj)) acc]
      simp [List.filter_cons, hx]
    · rw [if_neg hx]
      rw [getF64_rect hwf hdt hsh hi (hmem x (List.mem_cons_self x l)), except_bind_ok]
      rw [except_bind_ok,
        ih (fun j hj => hmem j (List.mem_cons_of_mem _ hj)) (acc ++ [entryAt a n i x])]
      simp [List.filter_cons, hx]

theorem minor_outer {a : NDArray} {n : Nat} (hwf : WF a) (hdt : a.dtype = .Float64)
    (hsh : a.shape = [n, n]) (col : Nat) :
    ∀ (l : List Nat), (∀ i ∈ l, i < n) → ∀ (acc : List ℚ),
      l.foldlM (fun acc i =>
        if i = 0 then .ok acc
        else (List.range n).foldlM (fun acc2 j =>
          if j = col then .ok acc2
          else do
            let v ← a.GetFloat64 [(i : Int), (j : Int)]
            .ok (acc2 ++ [v])) acc) acc =
      .ok (acc ++ (l.filter (fun i => ¬ i = 0)).flatMap (fun i =>
        ((List.range n).filter (fun j => ¬ j = col)).map (fun j => entryAt a n i j))) := by
  intro l
  induction l with
  | nil =>
    intro hmem acc
    show Except.ok acc = _
    simp
  | cons x l ih =>
    intro hmem acc
    rw [List.foldlM_cons]
    by_cases hx : x = 0
    · rw [if_pos hx, except_bind_ok, ih (fun i hil => hmem i (List.mem_cons_of_mem _ hil)) acc]
      simp [List.filter_cons, hx]
    · rw [if_neg hx]
      rw [minor_inner hwf hdt hsh (hmem x (List.mem_cons_self x l)) col (List.range n)
        (fun j hj => List.mem_range.mp hj) acc]
      rw [except_bind_ok,
        ih (fun i hil => hmem i (List.mem_cons_of_mem _ hil))]
      simp [List.filter_cons, hx, List.flatMap_cons]

theorem minorArr_wf (a : NDArray) (n col : Nat) : WF (minorArr a n col) := by
  refine ⟨rfl, rfl, rfl, ?_⟩
  show ((List.range (n - 1)).flatMap (fun i =>
    (List.range (n - 1)).map (fun j => minorEntry (entryAt a n) 0 col i j))).length = _
  rw [flatMap_grid_length]
  show (n - 1) * (n - 1) = computeSize [n - 1, n - 1]
  simp [computeSize, prodList]

theorem minorArr_entry (a : NDArray) (n col : Nat) {i j : Nat}
    (hi : i < n - 1) (hj : j < n - 1) :
    entryAt (minorArr a n col) (n - 1) i j = minorEntry (entryAt a n) 0 col i j := by
  show ((List.range (n - 1)).flatMap (fun i =>
    (List.range (n - 1)).map (fun j => minorEntry (entryAt a n) 0 col i j))).getD
      (i * (n - 1) + j) 0 = _
  exact flatMap_grid_getD (n - 1) (n - 1) _ i j hi hj

theorem getMinor_ok {a : NDArray} {n : Nat} (hwf : WF a) (hdt : a.dtype = .Float64)
    (hsh : a.shape = [n, n]) {col : Nat} (hcol : col < n) (h1 : 1 ≤ n) :
    linalg.getMinor a 0 col = .ok (minorArr a n col) := by
  unfold linalg.getMinor
  rw [hsh]
  simp only [List.getD_cons_zero]
  rw [minor_outer hwf hdt hsh col (List.range n) (fun i hil => List.mem_range.mp hil) []]
  rw [except_bind_ok, List.nil_append]
  rw [filter_range_ne n 0 (by omega)]
  have hplus : List.map (fun i => if i < 0 then i else i + 1) (List.range (n - 1)) =
      List.map (fun i => i + 1) (List.range (n - 1)) :=
    List.map_congr_left (fun i _ => by rw [if_neg (Nat.not_lt_zero i)])
  rw [hplus, List.flatMap_map]
  have hrow : ∀ i : Nat,
      ((List.range n).filter (fun j => ¬ j = col)).map (fun j => entryAt a n (i + 1) j) =
        (List.range (n - 1)).map (fun j => minorEntry (entryAt a n) 0 col i j) := by
    intro i
    rw [filter_range_ne n col hcol, List.map_map]
    apply List.map_congr_left
    intro j hj
    simp [minorEntry, Function.comp]
  simp only [hrow]
  unfold FromSliceFloat64
  rw [if_neg ?_]
  · rfl
  · rw [flatMap_grid_length]
    show ¬ (n - 1) * (n - 1) ≠ computeSize [n - 1, n - 1]
    simp [computeSize, prodList]

theorem detSpec_congr : ∀ (n : Nat) (A B : Nat → Nat → ℚ),
    (∀ i j, i < n → j < n → A i j = B i j) → detSpec n A = detSpec n B := by
  intro n
  induction n using Nat.strong_induction_on with
  | _ n ih =>
    match n with
    | 0 => intro A B h; rfl
    | 1 => intro A B h; exact h 0 0 (by omega) (by omega)
    | 2 =>
      intro A B h
      simp only [detSpec]
      rw [h 0 0 (by omega) (by omega), h 1 1 (by omega) (by omega),
        h 0 1 (by omega) (by omega), h 1 0 (by omega) (by omega)]
    | m + 3 =>
      intro A B h
      simp only [detSpec]
      congr 1
      apply List.map_congr_left
      intro j hj
      rw [List.mem_range] at hj
      rw [h 0 j (by omega) hj]
      congr 1
      apply ih (m + 2) (by omega)
      intro i2 j2 hi2 hj2
      unfold minorEntry
      exact h _ _ (by split <;> omega) (by split <;> omega)

theorem det_fold {a : NDArray} {n f : Nat} (hwf : WF a) (hdt : a.dtype = .Float64)
    (hsh : a.shape = [n, n])
    (hrec : ∀ j, j < n → linalg.detFuel f (minorArr a n j) =
      .ok (detSpec (n - 1) (minorEntry (entryAt a n) 0 j)))
    (h1 : 1 ≤ n) :
    ∀ N, N ≤ n → ∀ (init : ℚ),
      (List.range N).foldlM (fun det j => do
        let minor ← linalg.getMinor a 0 j
        let dm ← linalg.detFuel f minor
        let a0j ← a.GetFloat64 [0, (j : Int)]
        let cofactor := a0j * dm
        .ok (if j % 2 = 0 then det + cofactor else det - cofactor)) init =
      .ok (init + ((List.range N).map (fun j =>
        (if j % 2 = 0 then (1 : ℚ) else -1) * entryAt a n 0 j *
          detSpec (n - 1) (minorEntry (entryAt a n) 0 j))).sum) := by
  intro N
  induction N with
  | zero =>
    intro h0 init
    show Except.ok init = _
    simp
  | succ N ih =>
    intro hN init
    have hNn : N < n := hN
    rw [List.range_succ, List.foldlM_append, ih (by omega) init, except_bind_ok]
    simp only [List.foldlM_cons, List.foldlM_nil]
    rw [getMinor_ok hwf hdt hsh hNn h1, except_bind_ok]
    rw [hrec N hNn, except_bind_ok]
    have h0n : (0 : Nat) < n := by omega
    rw [show a.GetFloat64 [0, (N : Int)] = .ok (entryAt a n 0 N) from
      getF64_rect hwf hdt hsh h0n hNn, except_bind_ok]
    rw [List.map_append, List.sum_append]
    simp only [List.map_cons, List.map_nil, List.sum_cons, List.sum_nil]
    by_cases hpar : N % 2 = 0
    · rw [if_pos hpar, if_pos hpar]
      show Except.ok _ = _
      congr 1
      ring
    · rw [if_neg hpar, if_neg hpar]
      show Except.ok _ = _
      congr 1
      ring

theorem detFuel_ok : ∀ (fuel n : Nat) (a : NDArray), n ≤ fuel → WF a →
    a.dtype = .Float64 → a.shape = [n, n] → 1 ≤ n →
    linalg.detFuel fuel a = .ok (detSpec n (entryAt a n)) := by
  intro fuel
  induction fuel with
  | zero =>
    intro n a hn hwf hdt hsh h1
    omega
  | succ f ih =>
    intro n a hn hwf hdt hsh h1
    have hnd2 : a.ndim = 2 := by rw [hwf.1, hsh]; rfl
    unfold linalg.detFuel
    rw [if_neg (show ¬ (a.ndim ≠ 2) from fun h => h hnd2)]
    rw [hsh]
    simp only [List.getD_cons_zero, List.getD_cons_succ]
    rw [if_neg (show ¬ (n ≠ n) from fun h => h rfl)]
    by_cases hn1 : n = 1
    · subst hn1
      rw [if_pos rfl]
      have h01 : (0 : Nat) < 1 := Nat.one_pos
      rw [show a.GetFloat64 [0, 0] = .ok (entryAt a 1 0 0) from
        getF64_rect hwf hdt hsh h01 h01]
      rfl
    · rw [if_neg hn1]
      by_cases hn2 : n = 2
      · subst hn2
        rw [if_pos rfl]
        have h02 : (0 : Nat) < 2 := by omega
        have h12 : (1 : Nat) < 2 := by omega
        rw [show a.GetFloat64 [0, 0] = .ok (entryAt a 2 0 0) from
          getF64_rect hwf hdt hsh h02 h02, except_bind_ok]
        rw [show a.GetFloat64 [1, 1] = .ok (entryAt a 2 1 1) from
          getF64_rect hwf hdt hsh h12 h12, except_bind_ok]
        rw [show a.GetFloat64 [0, 1] = .ok (entryAt a 2 0 1) from
          getF64_rect hwf hdt hsh h02 h12, except_bind_ok]
        rw [show a.GetFloat64 [1, 0] = .ok (entryAt a 2 1 0) from
          getF64_rect hwf hdt hsh h12 h02, except_bind_ok]
        rfl
      · rw [if_neg hn2]
        have hrec : ∀ j, j < n → linalg.detFuel f (minorArr a n j) =
            .ok (detSpec (n - 1) (minorEntry (entryAt a n) 0 j)) := by
          intro j hj
          rw [ih (n - 1) (minorArr a n j) (by omega) (minorArr_wf a n j) rfl rfl (by omega)]
          congr 1
          apply detSpec_congr
          intro i2 j2 hi2 hj2
          exact minorArr_entry a n j hi2 hj2
        rw [det_fold hwf hdt hsh hrec h1 n (le_refl n) 0]
        congr 1
        obtain ⟨m, rfl⟩ : ∃ m, n = m + 3 := ⟨n - 3, by omega⟩
        rw [zero_add, show m + 3 - 1 = m + 2 from rfl]
        simp only [detSpec]

/-- Claim C5: Det of a square Float64 matrix refines the specification
determinant detSpec — A[0,0] for n = 1, the 2 x 2 closed form for n = 2,
and for n >= 3 the cofactor expansion along row 0 with sign alternating by
column parity, each term multiplying A[0,j] by the determinant of the minor
that deletes row 0 and column j; in particular Det of
[[1,2,3],[0,1,4],[5,6,0]] is 1. -/
theorem claim_C5 :
    (do
      let a ← FromSliceFloat64 [1, 2, 3, 0, 1, 4, 5, 6, 0] [3, 3]
      linalg.Det a) = .ok 1 ∧
    ∀ (a : NDArray) (n : Nat), WF a → a.dtype = .Float64 → a.shape = [n, n] → 1 ≤ n →
      linalg.Det a = .ok (detSpec n (entryAt a n)) := by
  refine ⟨by with_unfolding_all decide, ?_⟩
  intro a n hwf hdt hsh h1
  unfold linalg.Det
  rw [hsh]
  simp only [List.getD_cons_zero]
  exact detFuel_ok n n a (le_refl n) hwf hdt hsh h1

/-- Witness for claim C5: the cofactor-expansion theorem applied to the
3 x 3 matrix [[1,2,3],[0,1,4],[5,6,0]]. -/
theorem claim_C5_witness :
    linalg.Det (⟨[1, 2, 3, 0, 1, 4, 5, 6, 0], [3, 3], [24, 8], .Float64, 9, 2⟩ : NDArray) =
      .ok (detSpec 3 (entryAt ⟨[1, 2, 3, 0, 1, 4, 5, 6, 0], [3, 3], [24, 8], .Float64, 9, 2⟩ 3)) :=
  claim_C5.2 ⟨[1, 2, 3, 0, 1, 4, 5, 6, 0], [3, 3], [24, 8], .Float64, 9, 2⟩ 3
    (by decide) rfl rfl (by decide)

/-!
Claim C3 groundwork: row-segment writes, grid buffers for the augmented
matrix, and the Gauss-Jordan loop structure of Inv.
-/

theorem setRow_length (D : List ℚ) (base : Nat) (f : Nat → ℚ) :
    ∀ L, (setRow D base f L).length = D.length := by
  intro L
  induction L with
  | zero => rfl
  | succ L ih => simp [setRow, List.length_set, ih]

theorem setRow_getD (D : List ℚ) (base : Nat) (f : Nat → ℚ) :
    ∀ L p, (setRow D base f L).getD p 0 =
      if base ≤ p ∧ p < base + L ∧ p < D.length then f (p - base) else D.getD p 0 := by
  intro L
  induction L with
  | zero =>
    intro p
    rw [if_neg (by omega)]
    rfl
  | succ L ih =>
    intro p
    by_cases hp : p = base + L
    · subst hp
      by_cases hlen : base + L < D.length
      · rw [setRow, List.getD_eq_getElem?_getD,
          List.getElem?_set_self (by rw [setRow_length]; exact hlen)]
        simp only [Option.getD_some]
        rw [if_pos ⟨by omega, by omega, hlen⟩, Nat.add_sub_cancel_left]
      · have h1 : (setRow D base f (L + 1)).length ≤ base + L := by
          rw [setRow_length]
          omega
        rw [List.getD_eq_default _ _ h1, if_neg (by omega),
          List.getD_eq_default _ _ (by omega)]
    · rw [setRow, List.getD_eq_getElem?_getD, List.getElem?_set_ne (by omega),
        ← List.getD_eq_getElem?_getD, ih p]
      by_cases hc : base ≤ p ∧ p < base + L ∧ p < D.length
      · rw [if_pos hc, if_pos ⟨hc.1, by omega, hc.2.2⟩]
      · rw [if_neg hc, if_neg (by omega)]

theorem gridData_length (g : Nat → Nat → ℚ) (r c : Nat) :
    (gridData g r c).length = r * c :=
  flatMap_grid_length c r g

theorem gridData_getD (g : Nat → Nat → ℚ) (r c : Nat) {i j : Nat} (hi : i < r) (hj : j < c) :
    (gridData g r c).getD (i * c + j) 0 = g i j :=
  flatMap_grid_getD c r g i j hi hj

theorem grid_eq_of_getD {D : List ℚ} {g : Nat → Nat → ℚ} {r c : Nat}
    (hlen : D.length = r * c)
    (h : ∀ i j, i < r → j < c → D.getD (i * c + j) 0 = g i j) : D = gridData g r c := by
  apply List.ext_getElem
  · rw [hlen, gridData_length]
  · intro p h1 h2
    have hp : p < r * c := by rw [hlen] at h1; exact h1
    have hc : 0 < c := Nat.pos_of_ne_zero (fun h0 => by subst h0; simp at hp)
    have hi : p / c < r := (Nat.div_lt_iff_lt_mul hc).mpr hp
    have hj : p % c < c := Nat.mod_lt _ hc
    rw [← List.getD_eq_getElem _ 0 h1, ← List.getD_eq_getElem _ 0 h2]
    have hdecomp : p = (p / c) * c + p % c := by
      calc p = c * (p / c) + p % c := (Nat.div_add_mod p c).symm
        _ = (p / c) * c + p % c := by ring
    rw [hdecomp, h _ _ hi hj, gridData_getD g r c hi hj]

theorem gridData_congr {g1 g2 : Nat → Nat → ℚ} {r c : Nat}
    (h : ∀ i j, i < r → j < c → g1 i j = g2 i j) : gridData g1 r c = gridData g2 r c :=
  grid_eq_of_getD (gridData_length g1 r c)
    (fun i j hi hj => by rw [gridData_getD g1 r c hi hj, h i j hi hj])

theorem computeSize_pair (r c : Nat) : computeSize [r, c] = r * c := by
  simp [computeSize, prodList]

theorem augWF {n : Nat} {D : List ℚ} (hlen : D.length = n * (2 * n)) :
    WF { Zeros [n, 2 * n] .Float64 with data := D } := by
  refine wf_fields (wf_zeros [n, 2 * n] .Float64) rfl rfl rfl rfl rfl ?_
  show D.length = (List.replicate (computeSize [n, 2 * n]) (0 : ℚ)).length
  rw [List.length_replicate, hlen, computeSize_pair]

theorem resWF {n : Nat} {D : List ℚ} (hlen : D.length = n * n) :
    WF { Zeros [n, n] .Float64 with data := D } := by
  refine wf_fields (wf_zeros [n, n] .Float64) rfl rfl rfl rfl rfl ?_
  show D.length = (List.replicate (computeSize [n, n]) (0 : ℚ)).length
  rw [List.length_replicate, hlen, computeSize_pair]

theorem set_getD (D : List ℚ) (q : Nat) (v : ℚ) (p : Nat) :
    (D.set q v).getD p 0 = if p = q ∧ q < D.length then v else D.getD p 0 := by
  by_cases hpq : p = q
  · subst hpq
    by_cases hlen : p < D.length
    · rw [List.getD_eq_getElem?_getD, List.getElem?_set_self hlen]
      simp [hlen]
    · rw [List.getD_eq_default _ _ (by rw [List.length_set]; omega), if_neg (by omega),
        List.getD_eq_default _ _ (by omega)]
  · rw [List.getD_eq_getElem?_getD, List.getElem?_set_ne (by omega),
      ← List.getD_eq_getElem?_getD, if_neg (by omega)]

theorem div_row {r c j : Nat} (hc : 0 < c) (hj : j < c) : (r * c + j) / c = r := by
  rw [Nat.add_comm, Nat.add_mul_div_right _ _ hc, Nat.div_eq_of_lt hj, Nat.zero_add]

theorem in_row_iff {I r j c L : Nat} (hj : j < c) (hL : L ≤ c) :
    (I * c ≤ r * c + j ∧ r * c + j < I * c + L) ↔ (r = I ∧ j < L) := by
  have hc : 0 < c := by omega
  constructor
  · rintro ⟨h1, h2⟩
    have hrI : r = I := by
      have hv1 : I ≤ (r * c + j) / c := (Nat.le_div_iff_mul_le hc).mpr h1
      have hv2 : (r * c + j) / c < I + 1 := by
        apply (Nat.div_lt_iff_lt_mul hc).mpr
        calc r * c + j < I * c + L := h2
          _ ≤ I * c + c := by omega
          _ = (I + 1) * c := by ring
      rw [div_row hc hj] at hv1 hv2
      omega
    subst hrI
    exact ⟨rfl, by omega⟩
  · rintro ⟨h1, h2⟩
    subst h1
    exact ⟨by omega, by omega⟩

theorem row_slot_ne {i k j c : Nat} (hj : j < c) (hik : i ≠ k) {L : Nat} (hL : L ≤ c) :
    ¬ (k * c ≤ i * c + j ∧ i * c + j < k * c + L) := by
  intro hcon
  have := (in_row_iff hj hL).mp hcon
  exact hik this.1

theorem slot_eq_iff {r1 j1 r2 j2 c : Nat} (h1 : j1 < c) (h2 : j2 < c) :
    r1 * c + j1 = r2 * c + j2 ↔ (r1 = r2 ∧ j1 = j2) := by
  have hc : 0 < c := by omega
  constructor
  · intro he
    have hr : r1 = r2 := by
      have e1 := div_row hc h1 (r := r1)
      have e2 := div_row hc h2 (r := r2)
      rw [← e1, ← e2, he]
    subst hr
    exact ⟨rfl, by omega⟩
  · rintro ⟨ha, hb⟩
    subst ha
    subst hb
    rfl

theorem inv_copy_inner {a : NDArray} {n : Nat} (hwf : WF a) (hdt : a.dtype = .Float64)
    (hsh : a.shape = [n, n]) {i : Nat} (hi : i < n) (D : List ℚ)
    (hlen : D.length = n * (2 * n)) :
    ∀ J, J ≤ n →
      (List.range J).foldlM (fun aug j => do
        let v ← a.GetFloat64 [(i : Int), (j : Int)]
        aug.SetFloat64 v [(i : Int), (j : Int)])
        { Zeros [n, 2 * n] .Float64 with data := D } =
      .ok { Zeros [n, 2 * n] .Float64 with
        data := setRow D (i * (2 * n)) (entryAt a n i) J } := by
  intro J
  induction J with
  | zero => intro h0; rfl
  | succ J ih =>
    intro hJ
    rw [List.range_succ, List.foldlM_append, ih (by omega), except_bind_ok]
    simp only [List.foldlM_cons, List.foldlM_nil]
    rw [getF64_rect hwf hdt hsh hi (show J < n by omega), except_bind_ok]
    have hwfst : WF { Zeros [n, 2 * n] .Float64 with
        data := setRow D (i * (2 * n)) (entryAt a n i) J } :=
      augWF (by rw [setRow_length, hlen])
    rw [setF64_rect hwfst rfl rfl hi (show J < 2 * n by omega) _]
    rw [except_bind_ok]
    rfl

theorem inv_norm_row {n : Nat} (D : List ℚ) (hlen : D.length = n * (2 * n))
    {i : Nat} (hi : i < n) (p : ℚ) :
    ∀ J, J ≤ 2 * n →
      (List.range J).foldlM (fun aug j => do
        let v ← aug.GetFloat64 [(i : Int), (j : Int)]
        aug.SetFloat64 (v / p) [(i : Int), (j : Int)])
        { Zeros [n, 2 * n] .Float64 with data := D } =
      .ok { Zeros [n, 2 * n] .Float64 with
        data := setRow D (i * (2 * n)) (fun j => D.getD (i * (2 * n) + j) 0 / p) J } := by
  intro J
  induction J with
  | zero => intro h0; rfl
  | succ J ih =>
    intro hJ
    rw [List.range_succ, List.foldlM_append, ih (by omega), except_bind_ok]
    simp only [List.foldlM_cons, List.foldlM_nil]
    have hwfst : WF { Zeros [n, 2 * n] .Float64 with
        data := setRow D (i * (2 * n)) (fun j => D.getD (i * (2 * n) + j) 0 / p) J } :=
      augWF (by rw [setRow_length, hlen])
    rw [getF64_rect hwfst rfl rfl hi (show J < 2 * n by omega), except_bind_ok]
    have hval : entryAt { Zeros [n, 2 * n] .Float64 with
        data := setRow D (i * (2 * n)) (fun j => D.getD (i * (2 * n) + j) 0 / p) J }
          (2 * n) i J = D.getD (i * (2 * n) + J) 0 := by
      show (setRow D (i * (2 * n)) (fun j => D.getD (i * (2 * n) + j) 0 / p) J).getD
        (i * (2 * n) + J) 0 = _
      rw [setRow_getD, if_neg (by omega)]
    rw [hval]
    rw [setF64_rect hwfst rfl rfl hi (show J < 2 * n by omega) _]
    rw [except_bind_ok]
    rfl

theorem inv_elim_inner {n : Nat} (D : List ℚ) (hlen : D.length = n * (2 * n))
    {i k : Nat} (hi : i < n) (hk : k < n) (hik : i ≠ k) (f : ℚ) :
    ∀ J, J ≤ 2 * n →
      (List.range J).foldlM (fun aug j => do
        let vkj ← aug.GetFloat64 [(k : Int), (j : Int)]
        let vij ← aug.GetFloat64 [(i : Int), (j : Int)]
        aug.SetFloat64 (vkj - f * vij) [(k : Int), (j : Int)])
        { Zeros [n, 2 * n] .Float64 with data := D } =
      .ok { Zeros [n, 2 * n] .Float64 with
        data := setRow D (k * (2 * n))
          (fun j => D.getD (k * (2 * n) + j) 0 - f * D.getD (i * (2 * n) + j) 0) J } := by
  intro J
  induction J with
  | zero => intro h0; rfl
  | succ J ih =>
    intro hJ
    rw [List.range_succ, List.foldlM_append, ih (by omega), except_bind_ok]
    simp only [List.foldlM_cons, List.foldlM_nil]
    have hwfst : WF { Zeros [n, 2 * n] .Float64 with
        data := setRow D (k * (2 * n))
          (fun j => D.getD (k * (2 * n) + j) 0 - f * D.getD (i * (2 * n) + j) 0) J } :=
      augWF (by rw [setRow_length, hlen])
    have hJ2 : J < 2 * n := by omega
    rw [getF64_rect hwfst rfl rfl hk hJ2, except_bind_ok]
    have hvk : entryAt { Zeros [n, 2 * n] .Float64 with
        data := setRow D (k * (2 * n))
          (fun j => D.getD (k * (2 * n) + j) 0 - f * D.getD (i * (2 * n) + j) 0) J }
          (2 * n) k J = D.getD (k * (2 * n) + J) 0 := by
      show (setRow D (k * (2 * n))
        (fun j => D.getD (k * (2 * n) + j) 0 - f * D.getD (i * (2 * n) + j) 0) J).getD
          (k * (2 * n) + J) 0 = _
      rw [setRow_getD, if_neg (by omega)]
    rw [hvk]
    rw [getF64_rect hwfst rfl rfl hi hJ2, except_bind_ok]
    have hvi : entryAt { Zeros [n, 2 * n] .Float64 with
        data := setRow D (k * (2 * n))
          (fun j => D.getD (k * (2 * n) + j) 0 - f * D.getD (i * (2 * n) + j) 0) J }
          (2 * n) i J = D.getD (i * (2 * n) + J) 0 := by
      show (setRow D (k * (2 * n))
        (fun j => D.getD (k * (2 * n) + j) 0 - f * D.getD (i * (2 * n) + j) 0) J).getD
          (i * (2 * n) + J) 0 = _
      rw [setRow_getD,
        if_neg (fun hcon => row_slot_ne hJ2 hik (show J ≤ 2 * n by omega) ⟨hcon.1, hcon.2.1⟩)]
    rw [hvi]
    rw [setF64_rect hwfst rfl rfl hk hJ2 _]
    rw [except_bind_ok]
    rfl

theorem inv_extract_inner {B : NDArray} {n : Nat} (hwfB : WF B) (hdtB : B.dtype = .Float64)
    (hshB : B.shape = [n, 2 * n]) {i : Nat} (hi : i < n) (D : List ℚ)
    (hlen : D.length = n * n) :
    ∀ J, J ≤ n →
      (List.range J).foldlM (fun res j => do
        let v ← B.GetFloat64 [(i : Int), (j : Int) + (n : Int)]
        res.SetFloat64 v [(i : Int), (j : Int)])
        { Zeros [n, n] .Float64 with data := D } =
      .ok { Zeros [n, n] .Float64 with
        data := setRow D (i * n) (fun j => entryAt B (2 * n) i (j + n)) J } := by
  intro J
  induction J with
  | zero => intro h0; rfl
  | succ J ih =>
    intro hJ
    rw [List.range_succ, List.foldlM_append, ih (by omega), except_bind_ok]
    simp only [List.foldlM_cons, List.foldlM_nil]
    have hidx : ((J : Int) + (n : Int)) = (((J + n : Nat)) : Int) := by push_cast; ring
    rw [hidx]
    rw [getF64_rect hwfB hdtB hshB hi (show J + n < 2 * n by omega), except_bind_ok]
    have hwfst : WF { Zeros [n, n] .Float64 with
        data := setRow D (i * n) (fun j => entryAt B (2 * n) i (j + n)) J } :=
      resWF (by rw [setRow_length, hlen])
    rw [setF64_rect hwfst rfl rfl hi (show J < n by omega) _]
    rw [except_bind_ok]
    rfl

theorem inv_copy_loop {a : NDArray} {n : Nat} (hwf : WF a) (hdt : a.dtype = .Float64)
    (hsh : a.shape = [n, n]) :
    ∀ I, I ≤ n →
      (List.range I).foldlM (fun (aug : NDArray) (i : Nat) => do
        let aug ← (List.range n).foldlM (fun (aug : NDArray) (j : Nat) => do
          let v ← a.GetFloat64 [(i : Int), (j : Int)]
          aug.SetFloat64 v [(i : Int), (j : Int)]) aug
        aug.SetFloat64 1 [(i : Int), (i : Int) + (n : Int)]) (Zeros [n, 2 * n] .Float64) =
      .ok { Zeros [n, 2 * n] .Float64 with
        data := gridData (fun r j => if r < I then augInit (entryAt a n) n r j else 0)
          n (2 * n) } := by
  intro I
  induction I with
  | zero =>
    intro h0
    have hdata : gridData (fun r j => if r < 0 then augInit (entryAt a n) n r j else 0)
        n (2 * n) = List.replicate (computeSize [n, 2 * n]) (0 : ℚ) := by
      symm
      apply grid_eq_of_getD
      · rw [List.length_replicate, computeSize_pair]
      · intro r j hr hj
        rw [getD_replicate_zero, if_neg (Nat.not_lt_zero r)]
    show Except.ok (Zeros [n, 2 * n] .Float64) = _
    rw [hdata]
    rfl
  | succ I ih =>
    intro hI
    have hIn : I < n := hI
    rw [List.range_succ, List.foldlM_append, ih (by omega), except_bind_ok]
    simp only [List.foldlM_cons, List.foldlM_nil]
    rw [inv_copy_inner hwf hdt hsh hIn
      (gridData (fun r j => if r < I then augInit (entryAt a n) n r j else 0) n (2 * n))
      (gridData_length _ n (2 * n)) n (le_refl n), except_bind_ok]
    have hidx : ((I : Int) + (n : Int)) = (((I + n : Nat)) : Int) := by push_cast; ring
    rw [hidx]
    have hwfst : WF { Zeros [n, 2 * n] .Float64 with
        data := setRow (gridData (fun r j => if r < I then augInit (entryAt a n) n r j else 0)
          n (2 * n)) (I * (2 * n)) (entryAt a n I) n } :=
      augWF (by rw [setRow_length, gridData_length])
    rw [setF64_rect hwfst rfl rfl hIn (show I + n < 2 * n by omega) 1, except_bind_ok]
    show Except.ok _ = _
    have hq : I * (2 * n) + (I + n) < n * (2 * n) := by
      calc I * (2 * n) + (I + n) < I * (2 * n) + 2 * n := by omega
        _ = (I + 1) * (2 * n) := by ring
        _ ≤ n * (2 * n) := Nat.mul_le_mul_right _ (by omega)
    have hdata : ((setRow (gridData (fun r j => if r < I then augInit (entryAt a n) n r j
          else 0) n (2 * n)) (I * (2 * n)) (entryAt a n I) n).set (I * (2 * n) + (I + n)) 1) =
        gridData (fun r j => if r < I + 1 then augInit (entryAt a n) n r j else 0)
          n (2 * n) := by
      apply grid_eq_of_getD
      · rw [List.length_set, setRow_length, gridData_length]
      · intro r j hr hj
        rw [set_getD]
        by_cases hslot : r * (2 * n) + j = I * (2 * n) + (I + n)
        · obtain ⟨hrI, hjIn⟩ := (slot_eq_iff hj (show I + n < 2 * n by omega)).mp hslot
          subst hrI
          subst hjIn
          rw [if_pos ⟨rfl, by rw [setRow_length, gridData_length]; exact hq⟩]
          rw [if_pos (show r < r + 1 by omega)]
          unfold augInit
          rw [if_neg (by omega), if_pos rfl]
        · rw [if_neg (fun hcon => hslot hcon.1), setRow_getD]
          by_cases hrow : r = I ∧ j < n
          · obtain ⟨hrI, hjn⟩ := hrow
            subst hrI
            have hlt3 : r * (2 * n) + j < n * (2 * n) := by
              calc r * (2 * n) + j < r * (2 * n) + 2 * n := by omega
                _ = (r + 1) * (2 * n) := by ring
                _ ≤ n * (2 * n) := Nat.mul_le_mul_right _ (by omega)
            rw [if_pos ⟨by omega, by omega, by rw [gridData_length]; exact hlt3⟩]
            rw [Nat.add_sub_cancel_left]
            rw [if_pos (show r < r + 1 by omega)]
            unfold augInit
            rw [if_pos hjn]
          · rw [if_neg (fun hcon =>
              hrow ((in_row_iff hj (show n ≤ 2 * n by omega)).mp ⟨hcon.1, hcon.2.1⟩))]
            rw [gridData_getD _ n (2 * n) hr hj]
            by_cases hrI : r < I
            · rw [if_pos hrI, if_pos (by omega)]
            · rw [if_neg hrI]
              by_cases hrI1 : r < I + 1
              · have hrIeq : r = I := by omega
                subst hrIeq
                rw [if_pos hrI1]
                unfold augInit
                have hjn : ¬ j < n := fun hj2 => hrow ⟨rfl, hj2⟩
                rw [if_neg hjn, if_neg (fun hjIn => hslot (by rw [hjIn]))]
              · rw [if_neg hrI1]
    rw [hdata]

theorem inv_extract_loop {B : NDArray} {n : Nat} (hwfB : WF B) (hdtB : B.dtype = .Float64)
    (hshB : B.shape = [n, 2 * n]) :
    ∀ I, I ≤ n →
      (List.range I).foldlM (fun (res : NDArray) (i : Nat) =>
        (List.range n).foldlM (fun (res : NDArray) (j : Nat) => do
          let v ← B.GetFloat64 [(i : Int), (j : Int) + (n : Int)]
          res.SetFloat64 v [(i : Int), (j : Int)]) res) (Zeros [n, n] .Float64) =
      .ok { Zeros [n, n] .Float64 with
        data := gridData (fun r j => if r < I then entryAt B (2 * n) r (j + n) else 0)
          n n } := by
  intro I
  induction I with
  | zero =>
    intro h0
    have hdata : gridData (fun r j => if r < 0 then entryAt B (2 * n) r (j + n) else 0)
        n n = List.replicate (computeSize [n, n]) (0 : ℚ) := by
      symm
      apply grid_eq_of_getD
      · rw [List.length_replicate, computeSize_pair]
      · intro r j hr hj
        rw [getD_replicate_zero, if_neg (Nat.not_lt_zero r)]
    show Except.ok (Zeros [n, n] .Float64) = _
    rw [hdata]
    rfl
  | succ I ih =>
    intro hI
    have hIn : I < n := hI
    rw [List.range_succ, List.foldlM_append, ih (by omega), except_bind_ok]
    simp only [List.foldlM_cons, List.foldlM_nil]
    rw [inv_extract_inner hwfB hdtB hshB hIn
      (gridData (fun r j => if r < I then entryAt B (2 * n) r (j + n) else 0) n n)
      (gridData_length _ n n) n (le_refl n), except_bind_ok]
    show Except.ok _ = _
    have hdata : setRow (gridData (fun r j => if r < I then entryAt B (2 * n) r (j + n)
          else 0) n n) (I * n) (fun j => entryAt B (2 * n) I (j + n)) n =
        gridData (fun r j => if r < I + 1 then entryAt B (2 * n) r (j + n) else 0) n n := by
      apply grid_eq_of_getD
      · rw [setRow_length, gridData_length]
      · intro r j hr hj
        rw [setRow_getD]
        by_cases hrow : r = I
        · subst hrow
          have hlt3 : r * n + j < n * n := by
            calc r * n + j < r * n + n := by omega
              _ = (r + 1) * n := by ring
              _ ≤ n * n := Nat.mul_le_mul_right _ (by omega)
          rw [if_pos ⟨by omega, by omega, by rw [gridData_length]; exact hlt3⟩]
          rw [Nat.add_sub_cancel_left, if_pos (show r < r + 1 by omega)]
        · rw [if_neg (fun hcon =>
            hrow ((in_row_iff hj (le_refl n)).mp ⟨hcon.1, hcon.2.1⟩).1)]
          rw [gridData_getD _ n n hr hj]
          by_cases hrI : r < I
          · rw [if_pos hrI, if_pos (by omega)]
          · rw [if_neg hrI, if_neg (by omega)]
    rw [hdata]

theorem foldlM_range_err {body : NDArray → Nat → Except NGError NDArray} :
    ∀ (n k : Nat) (st st2 : NDArray) (e : NGError), k < n →
      (List.range k).foldlM body st = .ok st2 → body st2 k = .error e →
      (List.range n).foldlM body st = .error e := by
  intro n
  induction n with
  | zero => intro k st st2 e hk; omega
  | succ m ih =>
    intro k st st2 e hk hok hbad
    rw [List.range_succ, List.foldlM_append]
    rcases Nat.lt_or_ge k m with hkm | hkm
    · rw [ih k st st2 e hkm hok hbad]
      rfl
    · have hkeq : k = m := by omega
      subst hkeq
      rw [hok, except_bind_ok]
      simp only [List.foldlM_cons, List.foldlM_nil]
      rw [hbad]
      rfl

theorem inv_elim_loop {n : Nat} (g : Nat → Nat → ℚ) {i : Nat} (hi : i < n) :
    ∀ K, K ≤ n →
      (List.range K).foldlM (fun (aug : NDArray) (k : Nat) =>
        if k = i then .ok aug
        else do
          let factor ← aug.GetFloat64 [(k : Int), (i : Int)]
          (List.range (2 * n)).foldlM (fun (aug : NDArray) (j : Nat) => do
            let vkj ← aug.GetFloat64 [(k : Int), (j : Int)]
            let vij ← aug.GetFloat64 [(i : Int), (j : Int)]
            aug.SetFloat64 (vkj - factor * vij) [(k : Int), (j : Int)]) aug)
        { Zeros [n, 2 * n] .Float64 with data := gridData g n (2 * n) } =
      .ok { Zeros [n, 2 * n] .Float64 with
        data := gridData (fun r j => if r = i then g r j
          else if r < K then g r j - g r i * g i j else g r j) n (2 * n) } := by
  intro K
  induction K with
  | zero =>
    intro h0
    have hdata : gridData (fun r j => if r = i then g r j
        else if r < 0 then g r j - g r i * g i j else g r j) n (2 * n) =
        gridData g n (2 * n) := by
      apply gridData_congr
      intro r j hr hj
      by_cases hri : r = i
      · rw [if_pos hri]
      · rw [if_neg hri, if_neg (Nat.not_lt_zero r)]
    show Except.ok _ = _
    rw [hdata]
  | succ K ih =>
    intro hK
    have hKn : K < n := hK
    rw [List.range_succ, List.foldlM_append, ih (by omega), except_bind_ok]
    simp only [List.foldlM_cons, List.foldlM_nil]
    by_cases hKi : K = i
    · rw [if_pos hKi, except_bind_ok]
      show Except.ok _ = _
      have hdata : gridData (fun r j => if r = i then g r j
          else if r < K then g r j - g r i * g i j else g r j) n (2 * n) =
          gridData (fun r j => if r = i then g r j
            else if r < K + 1 then g r j - g r i * g i j else g r j) n (2 * n) := by
        apply gridData_congr
        intro r j hr hj
        by_cases hri : r = i
        · rw [if_pos hri, if_pos hri]
        · rw [if_neg hri, if_neg hri]
          by_cases hrK : r < K
          · rw [if_pos hrK, if_pos (by omega)]
          · rw [if_neg hrK, if_neg (by omega)]
      rw [hdata]
    · rw [if_neg hKi]
      have hwfst : WF { Zeros [n, 2 * n] .Float64 with
          data := gridData (fun r j => if r = i then g r j
            else if r < K then g r j - g r i * g i j else g r j) n (2 * n) } :=
        augWF (gridData_length _ n (2 * n))
      rw [getF64_rect hwfst rfl rfl hKn (show i < 2 * n by omega), except_bind_ok]
      have hfac : entryAt { Zeros [n, 2 * n] .Float64 with
          data := gridData (fun r j => if r = i then g r j
            else if r < K then g r j - g r i * g i j else g r j) n (2 * n) }
            (2 * n) K i = g K i := by
        show (gridData (fun r j => if r = i then g r j
          else if r < K then g r j - g r i * g i j else g r j) n (2 * n)).getD
            (K * (2 * n) + i) 0 = _
        rw [gridData_getD _ n (2 * n) hKn (show i < 2 * n by omega)]
        rw [if_neg hKi, if_neg (lt_irrefl K)]
      rw [hfac]
      rw [inv_elim_inner (gridData (fun r j => if r = i then g r j
          else if r < K then g r j - g r i * g i j else g r j) n (2 * n))
        (gridData_length _ n (2 * n)) hi hKn (fun he => hKi he.symm) (g K i)
        (2 * n) (le_refl _), except_bind_ok]
      show Except.ok _ = _
      have hdata : setRow (gridData (fun r j => if r = i then g r j
            else if r < K then g r j - g r i * g i j else g r j) n (2 * n)) (K * (2 * n))
          (fun j => (gridData (fun r j => if r = i then g r j
            else if r < K then g r j - g r i * g i j else g r j) n (2 * n)).getD
              (K * (2 * n) + j) 0 -
            g K i * (gridData (fun r j => if r = i then g r j
            else if r < K then g r j - g r i * g i j else g r j) n (2 * n)).getD
              (i * (2 * n) + j) 0) (2 * n) =
          gridData (fun r j => if r = i then g r j
            else if r < K + 1 then g r j - g r i * g i j else g r j) n (2 * n) := by
        apply grid_eq_of_getD
        · rw [setRow_length, gridData_length]
        · intro r j hr hj
          rw [setRow_getD]
          by_cases hrow : r = K
          · subst hrow
            have hlt3 : r * (2 * n) + j < n * (2 * n) := by
              calc r * (2 * n) + j < r * (2 * n) + 2 * n := by omega
                _ = (r + 1) * (2 * n) := by ring
                _ ≤ n * (2 * n) := Nat.mul_le_mul_right _ (by omega)
            rw [if_pos ⟨by omega, by omega, by rw [gridData_length]; exact hlt3⟩]
            rw [Nat.add_sub_cancel_left]
            rw [gridData_getD _ n (2 * n) hr hj, gridData_getD _ n (2 * n) hi hj]
            rw [if_neg hKi, if_neg (lt_irrefl r), if_pos rfl]
            rw [if_neg hKi, if_pos (show r < r + 1 by omega)]
          · rw [if_neg (fun hcon =>
              hrow ((in_row_iff hj (le_refl (2 * n))).mp ⟨hcon.1, hcon.2.1⟩).1)]
            rw [gridData_getD _ n (2 * n) hr hj]
            by_cases hri : r = i
            · rw [if_pos hri, if_pos hri]
            · rw [if_neg hri, if_neg hri]
              by_cases hrK : r < K
              · rw [if_pos hrK, if_pos (by omega)]
              · rw [if_neg hrK, if_neg (by omega)]
      rw [hdata]

theorem inv_pivot_loop {n : Nat} (A : Nat → Nat → ℚ) :
    ∀ I, I ≤ n → (∀ k, k < I → pivotOK A n k) →
      (List.range I).foldlM (fun (aug : NDArray) (i : Nat) => do
        let pivot ← aug.GetFloat64 [(i : Int), (i : Int)]
        if |pivot| < 1 / 10 ^ 10 then .error .singularMatrixError
        else do
          let aug ← (List.range (2 * n)).foldlM (fun (aug : NDArray) (j : Nat) => do
            let v ← aug.GetFloat64 [(i : Int), (j : Int)]
            aug.SetFloat64 (v / pivot) [(i : Int), (j : Int)]) aug
          (List.range n).foldlM (fun (aug : NDArray) (k : Nat) =>
            if k = i then .ok aug
            else do
              let factor ← aug.GetFloat64 [(k : Int), (i : Int)]
              (List.range (2 * n)).foldlM (fun (aug : NDArray) (j : Nat) => do
                let vkj ← aug.GetFloat64 [(k : Int), (j : Int)]
                let vij ← aug.GetFloat64 [(i : Int), (j : Int)]
                aug.SetFloat64 (vkj - factor * vij) [(k : Int), (j : Int)]) aug) aug)
        { Zeros [n, 2 * n] .Float64 with data := gridData (augInit A n) n (2 * n) } =
      .ok { Zeros [n, 2 * n] .Float64 with
        data := gridData (augAfter A n I) n (2 * n) } := by
  intro I
  induction I with
  | zero =>
    intro h0 hOK
    show Except.ok _ = _
    rfl
  | succ I ih =>
    intro hI hOK
    have hIn : I < n := hI
    rw [List.range_succ, List.foldlM_append, ih (by omega) (fun k hk => hOK k (by omega)),
      except_bind_ok]
    simp only [List.foldlM_cons, List.foldlM_nil]
    have hwfst : WF { Zeros [n, 2 * n] .Float64 with
        data := gridData (augAfter A n I) n (2 * n) } :=
      augWF (gridData_length _ n (2 * n))
    rw [getF64_rect hwfst rfl rfl hIn (show I < 2 * n by omega), except_bind_ok]
    have hpiv : entryAt { Zeros [n, 2 * n] .Float64 with
        data := gridData (augAfter A n I) n (2 * n) } (2 * n) I I = augAfter A n I I I := by
      show (gridData (augAfter A n I) n (2 * n)).getD (I * (2 * n) + I) 0 = _
      rw [gridData_getD _ n (2 * n) hIn (show I < 2 * n by omega)]
    rw [hpiv]
    rw [if_neg (hOK I (by omega))]
    rw [inv_norm_row (gridData (augAfter A n I) n (2 * n)) (gridData_length _ n (2 * n))
      hIn (augAfter A n I I I) (2 * n) (le_refl _), except_bind_ok]
    have hnorm : setRow (gridData (augAfter A n I) n (2 * n)) (I * (2 * n))
        (fun j => (gridData (augAfter A n I) n (2 * n)).getD (I * (2 * n) + j) 0 /
          augAfter A n I I I) (2 * n) =
        gridData (fun r j => if r = I then augAfter A n I r j / augAfter A n I I I
          else augAfter A n I r j) n (2 * n) := by
      apply grid_eq_of_getD
      · rw [setRow_length, gridData_length]
      · intro r j hr hj
        rw [setRow_getD]
        by_cases hrow : r = I
        · subst hrow
          have hlt3 : r * (2 * n) + j < n * (2 * n) := by
            calc r * (2 * n) + j < r * (2 * n) + 2 * n := by omega
              _ = (r + 1) * (2 * n) := by ring
              _ ≤ n * (2 * n) := Nat.mul_le_mul_right _ (by omega)
          rw [if_pos ⟨by omega, by omega, by rw [gridData_length]; exact hlt3⟩,
            Nat.add_sub_cancel_left]
          rw [gridData_getD _ n (2 * n) hr hj, if_pos rfl]
        · rw [if_neg (fun hcon =>
            hrow ((in_row_iff hj (le_refl (2 * n))).mp ⟨hcon.1, hcon.2.1⟩).1)]
          rw [gridData_getD _ n (2 * n) hr hj, if_neg hrow]
    rw [hnorm]
    rw [inv_elim_loop (fun r j => if r = I then augAfter A n I r j / augAfter A n I I I
      else augAfter A n I r j) hIn n (le_refl n)]
    have hfinal : gridData (fun r j => if r = I then
          (fun r j => if r = I then augAfter A n I r j / augAfter A n I I I
            else augAfter A n I r j) r j
        else if r < n then
          (fun r j => if r = I then augAfter A n I r j / augAfter A n I I I
            else augAfter A n I r j) r j -
          (fun r j => if r = I then augAfter A n I r j / augAfter A n I I I
            else augAfter A n I r j) r I *
          (fun r j => if r = I then augAfter A n I r j / augAfter A n I I I
            else augAfter A n I r j) I j
        else (fun r j => if r = I then augAfter A n I r j / augAfter A n I I I
          else augAfter A n I r j) r j) n (2 * n) =
        gridData (pivotStep (augAfter A n I) I) n (2 * n) := by
      apply gridData_congr
      intro r j hr hj
      unfold pivotStep
      by_cases hri : r = I
      · simp [hri]
      · simp [hri, hr]
    rw [hfinal]
    rfl

/-- Claim C3: Inv performs Gauss-Jordan elimination on the augmented
[A | I] matrix of width 2n with pivot rows processed in order and no row
swapping; it fails with the singular-matrix panic exactly when the first
diagonal entry encountered satisfies |aug[i,i]| < 1e-10, and otherwise
returns the right half of the fully reduced augmented matrix; Inv on
[[0,0],[0,0]] fails with SingularMatrixError. -/
theorem claim_C3 :
    (do
      let a ← FromSliceFloat64 [0, 0, 0, 0] [2, 2]
      linalg.Inv a) = .error .singularMatrixError ∧
    ∀ (a : NDArray) (n : Nat), WF a → a.dtype = .Float64 → a.shape = [n, n] → 1 ≤ n →
      ((∀ k, k < n → pivotOK (entryAt a n) n k) →
        ∃ res, linalg.Inv a = .ok res ∧ res.shape = [n, n] ∧ res.dtype = .Float64 ∧
          ∀ i j, i < n → j < n →
            entryAt res n i j = augAfter (entryAt a n) n n i (j + n)) ∧
      (∀ k, k < n → ¬ pivotOK (entryAt a n) n k →
        (∀ k2, k2 < k → pivotOK (entryAt a n) n k2) →
        linalg.Inv a = .error .singularMatrixError) := by
  refine ⟨by with_unfolding_all decide, ?_⟩
  intro a n hwf hdt hsh h1
  have hnd2 : a.ndim = 2 := by rw [hwf.1, hsh]; rfl
  have hinit : gridData (fun r j => if r < n then augInit (entryAt a n) n r j else 0)
      n (2 * n) = gridData (augInit (entryAt a n) n) n (2 * n) :=
    gridData_congr (fun r j hr hj => if_pos hr)
  constructor
  · intro hOK
    refine ⟨{ Zeros [n, n] .Float64 with
      data := gridData (fun r j => if r < n then
        entryAt { Zeros [n, 2 * n] .Float64 with
          data := gridData (augAfter (entryAt a n) n n) n (2 * n) } (2 * n) r (j + n)
        else 0) n n }, ?_, rfl, rfl, ?_⟩
    · unfold linalg.Inv
      rw [if_neg (show ¬ (a.ndim ≠ 2) from fun h => h hnd2)]
      rw [hsh]
      simp only [List.getD_cons_zero, List.getD_cons_succ]
      rw [if_neg (show ¬ (n ≠ n) from fun h => h rfl)]
      rw [inv_copy_loop hwf hdt hsh n (le_refl n), except_bind_ok, hinit]
      rw [inv_pivot_loop (entryAt a n) n (le_refl n) (fun k hk => hOK k hk), except_bind_ok]
      rw [inv_extract_loop (augWF (gridData_length _ n (2 * n))) rfl rfl n (le_refl n)]
    · intro i j hi hj
      show (gridData (fun r j => if r < n then
        entryAt { Zeros [n, 2 * n] .Float64 with
          data := gridData (augAfter (entryAt a n) n n) n (2 * n) } (2 * n) r (j + n)
        else 0) n n).getD (i * n + j) 0 = _
      rw [gridData_getD _ n n hi hj, if_pos hi]
      show (gridData (augAfter (entryAt a n) n n) n (2 * n)).getD
        (i * (2 * n) + (j + n)) 0 = _
      rw [gridData_getD _ n (2 * n) hi (show j + n < 2 * n by omega)]
  · intro k hk hbad hfirst
    have hpartial := inv_pivot_loop (entryAt a n) k (le_of_lt hk) hfirst
    have hpiv : entryAt { Zeros [n, 2 * n] .Float64 with
        data := gridData (augAfter (entryAt a n) n k) n (2 * n) } (2 * n) k k =
        augAfter (entryAt a n) n k k k := by
      show (gridData (augAfter (entryAt a n) n k) n (2 * n)).getD (k * (2 * n) + k) 0 = _
      rw [gridData_getD _ n (2 * n) hk (show k < 2 * n by omega)]
    unfold linalg.Inv
    rw [if_neg (show ¬ (a.ndim ≠ 2) from fun h => h hnd2)]
    rw [hsh]
    simp only [List.getD_cons_zero, List.getD_cons_succ]
    rw [if_neg (show ¬ (n ≠ n) from fun h => h rfl)]
    rw [inv_copy_loop hwf hdt hsh n (le_refl n), except_bind_ok, hinit]
    rw [foldlM_range_err n k _ _ .singularMatrixError hk hpartial (by
      dsimp only
      rw [getF64_rect (augWF (gridData_length _ n (2 * n))) rfl rfl hk
        (show k < 2 * n by omega), except_bind_ok]
      rw [hpiv, if_pos (not_not.mp hbad)])]
    rfl

/-- Witness for claim C3: the Gauss-Jordan theorem applied to the 1 x 1
identity matrix, whose single pivot clears the singularity threshold. -/
theorem claim_C3_witness :
    ∃ res, linalg.Inv (⟨[1], [1, 1], [8, 8], .Float64, 1, 2⟩ : NDArray) = .ok res ∧
      res.shape = [1, 1] ∧ res.dtype = .Float64 ∧
      ∀ i j, i < 1 → j < 1 →
        entryAt res 1 i j =
          augAfter (entryAt ⟨[1], [1, 1], [8, 8], .Float64, 1, 2⟩ 1) 1 1 i (j + 1) :=
  (claim_C3.2 ⟨[1], [1, 1], [8, 8], .Float64, 1, 2⟩ 1 (by decide) rfl rfl (by decide)).1
    (fun k hk => by
      have hk0 : k = 0 := by omega
      subst hk0
      with_unfolding_all decide)

end NumGo


